import Mathlib

/-!
Verification development for the IPTV playlist manager's core subsystems:
the M3U playlist text codec (`backend/services/m3u_parser.py`), the stream
prober and validation orchestrator (`backend/services/validation.py`), and
the consolidation file write.

Python strings are modelled as `List Char`.  Machine-level details that the
verified properties do not depend on (wall-clock timestamps, SQLAlchemy
session mechanics, asyncio scheduling) are modelled by explicit parameters
or noted in the corresponding doc comments.
-/

namespace IPTV

/-- Characters of a Lean string literal, used to write Python strings. -/
def cs (s : String) : List Char := s.data

/-- Whitespace as recognised by Python's `str.strip` / regex `\s`
(ASCII range). -/
def isSpaceChar (c : Char) : Bool :=
  c = ' ' || c = '\t' || c = '\n' || c = '\r' || c = '\x0b' || c = '\x0c'

/-- `str.strip()`: drop whitespace from both ends. -/
def trim (l : List Char) : List Char :=
  ((l.dropWhile isSpaceChar).reverse.dropWhile isSpaceChar).reverse

/-- Regex `\w` (ASCII): letters, digits, underscore. -/
def isWordChar (c : Char) : Bool := c.isAlphanum || c = '_'

/-- A character that can occur in the key part `\w+(?:-\w+)*` of the
attribute regex. -/
def isKeyChar (c : Char) : Bool := isWordChar c || c = '-'

def isQuote (c : Char) : Bool := c = '"' || c = '\''

/-- `str.lower()` (ASCII). -/
def lowerStr (l : List Char) : List Char := l.map Char.toLower

/-- A channel record: the dictionary shape exchanged between the codec,
orchestrator and consolidator.  A `none` field models an absent dictionary
key (the Python code reads fields through `dict.get` with a default). -/
structure Rec where
  name : Option (List Char) := none
  group_title : Option (List Char) := none
  logo : Option (List Char) := none
  tvg_id : Option (List Char) := none
  tvg_name : Option (List Char) := none
  tvg_logo : Option (List Char) := none
  tvg_epg : Option (List Char) := none
  stream_url : Option (List Char) := none
  deriving Repr, DecidableEq

/-- The semantic content of a record: display name, group, the recognized
attributes, and the stream address (absent fields read as `""`, matching
`dict.get(key, '')`). -/
structure SemTuple where
  name : List Char
  group_title : List Char
  tvg_id : List Char
  tvg_name : List Char
  tvg_logo : List Char
  tvg_epg : List Char
  stream_url : List Char
  deriving Repr, DecidableEq

def tupleOf (r : Rec) : SemTuple :=
  { name := r.name.getD []
    group_title := r.group_title.getD []
    tvg_id := r.tvg_id.getD []
    tvg_name := r.tvg_name.getD []
    tvg_logo := r.tvg_logo.getD []
    tvg_epg := r.tvg_epg.getD []
    stream_url := r.stream_url.getD [] }

/-! ## The EXTINF attribute scanner

`_parse_extinf_line` extracts attributes with
`re.findall(r'(\w+(?:-\w+)*)=["\'](.*?)["\']|(\w+(?:-\w+)*)=(\S+)', line)`.
The functions below implement exactly the behaviour of this regex under
`re.findall`: scan left to right; at each position try the quoted
alternative first, then the unquoted one; on a match emit the (key, value)
pair and continue after the match, otherwise advance one character. -/

/-- Key shape `\w+(?:-\w+)*` over a run of key characters: nonempty, starts
and ends with a word character, no two adjacent dashes.  The regex matches
the key greedily; it consumes the whole maximal word-or-dash run exactly
when that run has this shape (a shrunken greedy match always leaves a word
or dash character where `=` is required, so backtracking never helps). -/
def noDoubleDash : List Char → Bool
  | '-' :: '-' :: _ => false
  | _ :: rest => noDoubleDash rest
  | [] => true

def headIsWord : List Char → Bool
  | c :: _ => isWordChar c
  | [] => false

def keyOk (l : List Char) : Bool :=
  headIsWord l && headIsWord l.reverse && noDoubleDash l

/-- Lazy `(.*?)["\']`: split at the first quote character (of either
kind); fails if none occurs before the end (`.` does not match a newline,
so a newline also aborts — EXTINF lines never contain one). -/
def splitAtQuote : List Char → Option (List Char × List Char)
  | [] => none
  | c :: rest =>
    if isQuote c then some ([], rest)
    else if c = '\n' then none
    else
      match splitAtQuote rest with
      | some (v, r) => some (c :: v, r)
      | none => none

/-- The unquoted alternative `=(\S+)` applied after `key=`. -/
def matchUnquoted (run rest2 : List Char) :
    Option (List Char × List Char × List Char) :=
  let v := rest2.takeWhile (fun c => !isSpaceChar c)
  if v.isEmpty then none
  else some (run, v, rest2.dropWhile (fun c => !isSpaceChar c))

/-- After `key=` has matched: try the quoted alternative first, fall back
to the unquoted one (`re` tries the first alternative of the pattern
before the second at each position). -/
def matchVal (run rest2 : List Char) :
    Option (List Char × List Char × List Char) :=
  match rest2 with
  | q :: rest3 =>
    if isQuote q then
      match splitAtQuote rest3 with
      | some (v, r4) => some (run, v, r4)
      | none => matchUnquoted run rest2
    else matchUnquoted run rest2
  | [] => none

/-- One attempt of the full pattern at the current position.  Returns
(key, value, remainder after the match). -/
def matchAttrAt (l : List Char) : Option (List Char × List Char × List Char) :=
  if !keyOk (l.takeWhile isKeyChar) then none
  else
    match l.dropWhile isKeyChar with
    | '=' :: rest2 => matchVal (l.takeWhile isKeyChar) rest2
    | _ => none

theorem splitAtQuote_length {l v r : List Char}
    (h : splitAtQuote l = some (v, r)) : r.length < l.length := by
  induction l generalizing v r with
  | nil => simp [splitAtQuote] at h
  | cons c rest ih =>
    unfold splitAtQuote at h
    by_cases hq : isQuote c
    · simp only [hq, if_true, Option.some.injEq, Prod.mk.injEq] at h
      rw [← h.2]
      simp
    · by_cases hn : c = '\n'
      · rw [hn] at h
        simp only [show isQuote '\n' = false by decide, Bool.false_eq_true,
          if_false, if_pos rfl] at h
        simp at h
      · simp only [hq, hn, if_false, Bool.false_eq_true] at h
        cases hs : splitAtQuote rest with
        | none => rw [hs] at h; simp at h
        | some p =>
          rw [hs] at h
          obtain ⟨v', r'⟩ := p
          simp only [Option.some.injEq, Prod.mk.injEq] at h
          have := ih hs
          rw [← h.2]
          simp
          omega

theorem length_dropWhile_le (p : Char → Bool) (l : List Char) :
    (l.dropWhile p).length ≤ l.length := by
  induction l with
  | nil => simp [List.dropWhile]
  | cons c rest ih =>
    by_cases h : p c
    · simp [List.dropWhile, h]; omega
    · simp [List.dropWhile, h]

theorem matchUnquoted_length {run rest2 k v r : List Char}
    (h : matchUnquoted run rest2 = some (k, v, r)) : r.length ≤ rest2.length := by
  unfold matchUnquoted at h
  by_cases he : (rest2.takeWhile (fun c => !isSpaceChar c)).isEmpty
  · simp [he] at h
  · simp only [he, if_false, Bool.false_eq_true, Option.some.injEq,
      Prod.mk.injEq] at h
    have := length_dropWhile_le (fun c => !isSpaceChar c) rest2
    rw [← h.2.2]
    omega

theorem matchVal_length {run rest2 k v r : List Char}
    (h : matchVal run rest2 = some (k, v, r)) : r.length ≤ rest2.length := by
  unfold matchVal at h
  cases rest2 with
  | nil => simp at h
  | cons q rest3 =>
    by_cases hq : isQuote q
    · simp only [hq, if_true] at h
      cases hs : splitAtQuote rest3 with
      | some p =>
        obtain ⟨v', r'⟩ := p
        rw [hs] at h
        simp at h
        have := splitAtQuote_length hs
        simp [← h.2.2]
        omega
      | none =>
        rw [hs] at h
        have := matchUnquoted_length h
        omega
    · simp only [hq, if_false, Bool.false_eq_true] at h
      have := matchUnquoted_length h
      omega

theorem matchAttrAt_length {l k v r : List Char}
    (h : matchAttrAt l = some (k, v, r)) : r.length < l.length := by
  unfold matchAttrAt at h
  by_cases hk : keyOk (l.takeWhile isKeyChar)
  · simp only [hk, Bool.not_true, if_false, Bool.false_eq_true] at h
    have h2 : (l.takeWhile isKeyChar).length + (l.dropWhile isKeyChar).length
        = l.length := by
      have h0 := congrArg List.length
        (List.takeWhile_append_dropWhile (p := isKeyChar) (l := l))
      rw [List.length_append] at h0
      exact h0
    have h3 : 0 < (l.takeWhile isKeyChar).length := by
      cases htw : l.takeWhile isKeyChar with
      | nil => rw [htw] at hk; simp [keyOk, headIsWord] at hk
      | cons b bs => simp [htw]
    split at h
    · next rest2 heq =>
      have h1 := matchVal_length h
      rw [heq] at h2
      simp at h2
      omega
    · simp at h
  · simp [hk] at h

/-- `re.findall` over the whole line: non-overlapping matches, scanning
left to right, advancing one character when no alternative matches.
Written with structural fuel (the input length always suffices, since a
match consumes at least one character) so that the definition reduces by
evaluation. -/
def findAttrsF : Nat → List Char → List (List Char × List Char)
  | 0, _ => []
  | _ + 1, [] => []
  | fuel + 1, c :: rest =>
    match matchAttrAt (c :: rest) with
    | some (k, v, r) => (k, v) :: findAttrsF fuel r
    | none => findAttrsF fuel rest

def findAttrs (l : List Char) : List (List Char × List Char) :=
  findAttrsF l.length l

theorem findAttrsF_congr :
    ∀ (fuel : Nat), ∀ l : List Char, l.length ≤ fuel →
      findAttrsF fuel l = findAttrsF l.length l := by
  intro fuel
  induction fuel using Nat.strong_induction_on with
  | _ fuel ih =>
    match fuel with
    | 0 =>
      intro l hl
      have h0 : l = [] := List.length_eq_zero.mp (Nat.le_zero.mp hl)
      rw [h0]
      rfl
    | fuel + 1 =>
      intro l hl
      match l with
      | [] => rfl
      | c :: rest =>
        simp only [List.length_cons] at hl
        have hrest : rest.length ≤ fuel := by omega
        show (match matchAttrAt (c :: rest) with
          | some (k, v, r) => (k, v) :: findAttrsF fuel r
          | none => findAttrsF fuel rest) =
          (match matchAttrAt (c :: rest) with
          | some (k, v, r) => (k, v) :: findAttrsF rest.length r
          | none => findAttrsF rest.length rest)
        cases hm : matchAttrAt (c :: rest) with
        | some p =>
          obtain ⟨k, v, r⟩ := p
          have hr : r.length ≤ rest.length := by
            have := matchAttrAt_length hm
            simp at this
            omega
          show (k, v) :: findAttrsF fuel r =
            (k, v) :: findAttrsF rest.length r
          rw [ih fuel (Nat.lt_succ_self _) r (Nat.le_trans hr hrest),
            ih rest.length (Nat.lt_succ_of_le hrest) r hr]
        | none =>
          show findAttrsF fuel rest = findAttrsF rest.length rest
          exact ih fuel (Nat.lt_succ_self _) rest hrest

/-- The recursion equation of the scanner. -/
theorem findAttrs_cons (c : Char) (rest : List Char) :
    findAttrs (c :: rest) =
      match matchAttrAt (c :: rest) with
      | some (k, v, r) => (k, v) :: findAttrs r
      | none => findAttrs rest := by
  show (match matchAttrAt (c :: rest) with
    | some (k, v, r) => (k, v) :: findAttrsF rest.length r
    | none => findAttrsF rest.length rest) =
    (match matchAttrAt (c :: rest) with
    | some (k, v, r) => (k, v) :: findAttrs r
    | none => findAttrs rest)
  cases hm : matchAttrAt (c :: rest) with
  | some p =>
    obtain ⟨k, v, r⟩ := p
    have hr : r.length ≤ rest.length := by
      have := matchAttrAt_length hm
      simp at this
      omega
    show (k, v) :: findAttrsF rest.length r = (k, v) :: findAttrs r
    rw [findAttrsF_congr rest.length r hr]
    rfl
  | none =>
    show findAttrsF rest.length rest = findAttrs rest
    rfl

/-- `key.lower().replace('-', '_')`. -/
def normalizeKey (k : List Char) : List Char :=
  (lowerStr k).map (fun c => if c = '-' then '_' else c)

/-- Assignment into `channel_info` if the normalized key is one of its
seven keys; unknown keys are ignored. -/
def setIfKnown (info : Rec) (key v : List Char) : Rec :=
  if key = cs "name" then { info with name := some v }
  else if key = cs "group_title" then { info with group_title := some v }
  else if key = cs "logo" then { info with logo := some v }
  else if key = cs "tvg_id" then { info with tvg_id := some v }
  else if key = cs "tvg_name" then { info with tvg_name := some v }
  else if key = cs "tvg_logo" then { info with tvg_logo := some v }
  else if key = cs "tvg_epg" then { info with tvg_epg := some v }
  else info

/-- The assignment loop over `re.findall` matches.  A pair whose value is
empty is skipped: the Python loop requires both captured groups of the
matching alternative to be truthy (`if match[0] and match[1]` /
`elif match[2] and match[3]`); keys are never empty, values can be only
for the quoted alternative. -/
def applyAttrs (info : Rec) (pairs : List (List Char × List Char)) : Rec :=
  pairs.foldl
    (fun info p =>
      if p.2.isEmpty then info else setIfKnown info (normalizeKey p.1) p.2)
    info

/-- `re.search(r',(.+)$', line)`: the leftmost comma followed by at least
one character; the captured group is everything after that comma. -/
def commaName : List Char → Option (List Char)
  | [] => none
  | c :: rest =>
    if c = ',' then (if rest.isEmpty then none else some rest)
    else commaName rest

/-- `channel_info` as initialized at the top of `_parse_extinf_line`:
all seven keys present with value `''`. -/
def extinfBase : Rec :=
  { name := some [], group_title := some [], logo := some [],
    tvg_id := some [], tvg_name := some [], tvg_logo := some [],
    tvg_epg := some [], stream_url := none }

/-- `_parse_extinf_line`: attribute extraction, then the display name from
the text after the first comma (stripped). -/
def parse_extinf_line (line : List Char) : Rec :=
  let info := applyAttrs extinfBase (findAttrs line)
  match commaName line with
  | some n => { info with name := some (trim n) }
  | none => info

/-! ## `_extract_name_from_url`

The Python code uses `urllib.parse.urlparse(url).path`.  The embedding
below reproduces `urlparse`'s path component for ordinary URLs: an
optional `scheme:` prefix (letter followed by letters/digits/`+`/`-`/`.`),
an optional `//netloc` part ending at the first `/`, `?` or `#`, then the
path up to the first `?` or `#`.  (RFC-1808 `;parameters` splitting, which
`urlparse` additionally performs on the last segment, is not modelled; no
verified property depends on it.) -/

def isSchemeChar (c : Char) : Bool :=
  c.isAlphanum || c = '+' || c = '-' || c = '.'

/-- Strip a `scheme:` prefix if present. -/
def stripScheme (url : List Char) : List Char :=
  match url with
  | c :: rest =>
    if c.isAlpha then
      match rest.dropWhile isSchemeChar with
      | ':' :: after => after
      | _ => url
    else url
  | [] => url

/-- Strip a `//netloc` prefix if present: the netloc ends at the first
`/`, `?` or `#`. -/
def stripNetloc (l : List Char) : List Char :=
  match l with
  | '/' :: '/' :: rest => rest.dropWhile (fun c => !(c = '/' || c = '?' || c = '#'))
  | _ => l

/-- The path component: what remains before the first `?` or `#`. -/
def urlPath (url : List Char) : List Char :=
  (stripNetloc (stripScheme url)).takeWhile (fun c => !(c = '?' || c = '#'))

/-- `split(sep)` on a single-character separator, Python semantics
(`''.split('/') == ['']`). -/
def splitOnChar (sep : Char) : List Char → List (List Char)
  | [] => [[]]
  | c :: rest =>
    if c = sep then [] :: splitOnChar sep rest
    else
      match splitOnChar sep rest with
      | l :: ls => (c :: l) :: ls
      | [] => [[c]]

/-- `_extract_name_from_url`: last path segment, stripped of its
extension; `"Unknown Channel"` when there is no usable segment. -/
def extract_name_from_url (url : List Char) : List Char :=
  let path := urlPath url
  if path.isEmpty then cs "Unknown Channel"
  else
    let seg := (splitOnChar '/' path).getLastD []
    let name := (splitOnChar '.' seg).headD []
    if name.isEmpty then cs "Unknown Channel" else name

/-! ## `parse_m3u_content` and `generate_m3u_content` -/

/-- A list starts with the characters of `p` (`str.startswith`). -/
def startsWith (p l : List Char) : Bool :=
  decide (l.take p.length = p)

/-- A record created for a URL line with no preceding `#EXTINF` line. -/
def bareRecord (url : List Char) : Rec :=
  { name := some (extract_name_from_url url), stream_url := some url,
    group_title := some (cs "Unknown") }

/-- The line loop of `parse_m3u_content`.  `cur` is `current_info`
(`none` models the empty dict, which is falsy). -/
def parseLines : List (List Char) → Option Rec → List Rec
  | [], _ => []
  | line :: rest, cur =>
    let l := trim line
    if l.isEmpty then parseLines rest cur
    else if startsWith (cs "#EXTINF") l then
      parseLines rest (some (parse_extinf_line l))
    else if l.headD ' ' = '#' then parseLines rest cur
    else
      match cur with
      | some info => { info with stream_url := some l } :: parseLines rest none
      | none => bareRecord l :: parseLines rest none

/-- `parse_m3u_content`: strip the content, split into lines, run the
line loop with an initially empty `current_info`. -/
def parse_m3u_content (content : List Char) : List Rec :=
  parseLines (splitOnChar '\n' (trim content)) none

/-- One emitted attribute token `key="value"`. -/
def attrToken (lab v : List Char) : List Char := lab ++ '=' :: '"' :: v ++ ['"']

/-- `[(label, value)]` if the value is non-empty, else nothing: the
generator emits only non-empty attributes. -/
def optAttr (lab v : List Char) : List (List Char × List Char) :=
  if v.isEmpty then [] else [(lab, v)]

/-- The attributes emitted for a record, in the generator's fixed order
`tvg_id, tvg_name, tvg_logo, tvg_epg, group_title` (keys rendered with
`'_'` replaced by `'-'`). -/
def emittedAttrs (r : Rec) : List (List Char × List Char) :=
  optAttr (cs "tvg-id") (r.tvg_id.getD []) ++
  optAttr (cs "tvg-name") (r.tvg_name.getD []) ++
  optAttr (cs "tvg-logo") (r.tvg_logo.getD []) ++
  optAttr (cs "tvg-epg") (r.tvg_epg.getD []) ++
  optAttr (cs "group-title") (r.group_title.getD [])

/-- The token region of the generated line: each attribute token preceded
by the joining space, in front of `tail`. -/
def tokensText (ps : List (List Char × List Char)) (tail : List Char) :
    List Char :=
  ps.foldr (fun p acc => ' ' :: attrToken p.1 p.2 ++ acc) tail

/-- The generated `#EXTINF` line:
`' '.join(['#EXTINF:-1'] ++ tokens) + f',{name}'` (name defaults to
`"Unknown"` when the key is absent). -/
def generateExtinf (r : Rec) : List Char :=
  cs "#EXTINF:-1" ++
    tokensText (emittedAttrs r) (',' :: r.name.getD (cs "Unknown"))

/-- `'\n'.join(lines)`. -/
def joinLines : List (List Char) → List Char
  | [] => []
  | [l] => l
  | l :: rest => l ++ '\n' :: joinLines rest

/-- The per-record lines appended after the header: the `#EXTINF` line,
then the stream address line (`channel.get('stream_url', '')`). -/
def genLines (rs : List Rec) : List (List Char) :=
  rs.foldr (fun r acc => generateExtinf r :: r.stream_url.getD [] :: acc) []

/-- `generate_m3u_content`: the `#EXTM3U` header, then per record the
`#EXTINF` line and the stream address line, joined with newlines. -/
def generate_m3u_content (rs : List Rec) : List Char :=
  joinLines (cs "#EXTM3U" :: genLines rs)

/-! ## `deduplicate_channels` -/

/-- `channel.get('stream_url', '')`. -/
def urlKey (r : Rec) : List Char := r.stream_url.getD []

/-- `f"{name.lower()}:{group.lower()}"` with
`name = channel.get('name', '')`, `group = channel.get('group_title', '')`. -/
def nameKey (r : Rec) : List Char :=
  lowerStr (r.name.getD []) ++ ':' :: lowerStr (r.group_title.getD [])

/-- The dedup pass with its two seen-sets (sets modelled as lists; only
membership is used). -/
def dedupGo (seenUrls seenNames : List (List Char)) : List Rec → List Rec
  | [] => []
  | c :: rest =>
    if urlKey c ∈ seenUrls then dedupGo seenUrls seenNames rest
    else if nameKey c ∈ seenNames then dedupGo seenUrls seenNames rest
    else c :: dedupGo (urlKey c :: seenUrls) (nameKey c :: seenNames) rest

/-- `deduplicate_channels`: single left-to-right pass, both seen-sets
initially empty. -/
def deduplicate_channels (rs : List Rec) : List Rec :=
  dedupGo [] [] rs

/-! ## `save_m3u_file` (consolidation artifact write)

`save_m3u_file` computes the full text with `generate_m3u_content` and
then runs `open(file_path, 'w')` / `f.write(content)`.  CPython file
semantics: opening with mode `'w'` truncates the file immediately; a
`write` that fails after `n` characters leaves exactly those `n`
characters in the (already truncated) file, and the exception propagates
(`save_m3u_file` re-raises).  The environment's write behaviour is an
explicit parameter. -/

inductive WriteOutcome where
  /-- the write completes -/
  | success : WriteOutcome
  /-- the write raises after `n` characters reached the file -/
  | failAfter (n : Nat) : WriteOutcome
  deriving Repr, DecidableEq

/-- `save_m3u_file` acting on the artifact: given the previous contents
and the environment's write outcome, returns
(the exception if one propagates, the artifact contents afterwards). -/
def save_m3u_file (chans : List Rec) (_oldArtifact : List Char)
    (w : WriteOutcome) : Option (List Char) × List Char :=
  let content := generate_m3u_content chans
  match w with
  | .success => (none, content)
  | .failAfter n => (some content, content.take n)

/-! ## The stream prober: `validate_stream_url`

`validate_stream_url(url, timeout)` is driven by two network operations
(the `HEAD` request and the ranged `GET`), each of which either returns a
protocol status or raises.  Both are modelled as oracle inputs carrying
the elapsed time `time.time() - start_time` observed when that operation
resolved.  Exceptions are classified exactly as the code's handlers do:
`aiohttp.ClientError`, `asyncio.TimeoutError`, or any other `Exception`
(with its `str(e)` rendering; `str()` of an argument-less
`asyncio.TimeoutError` is the empty string). -/

inductive PyExc where
  /-- `aiohttp.ClientError` (also caught by `except Exception`) -/
  | clientError (msg : List Char)
  /-- `asyncio.TimeoutError` -/
  | timeoutErr
  /-- any other `Exception` -/
  | otherExc (msg : List Char)
  deriving Repr, DecidableEq

/-- `str(e)`. -/
def pyStr : PyExc → List Char
  | .clientError m => m
  | .timeoutErr => []
  | .otherExc m => m

/-- The resolution of one network request: a status, or an exception;
`t` is the elapsed time at resolution. -/
inductive ReqResult where
  | ok (status : Nat) (t : Nat)
  | raised (e : PyExc) (t : Nat)
  deriving Repr, DecidableEq

/-- The tuple `(is_working, response_time, error_message, status_code)`
returned by `validate_stream_url`. -/
structure ProbeOutcome where
  is_working : Bool
  response_time : Nat
  error_message : Option (List Char)
  status_code : Option Nat
  deriving Repr, DecidableEq

/-- `f"HTTP {status}"`. -/
def httpErr (s : Nat) : List Char := cs "HTTP " ++ cs (toString s)

/-- `validate_stream_url`: empty/blank URL rejected without any network
attempt; otherwise the `HEAD` request, with `aiohttp.ClientError` the
only exception that proceeds to the ranged `GET` fallback; a
`HEAD`-stage `asyncio.TimeoutError` reaches the outer handler (it is not
a `ClientError`), while at the `GET` stage every exception — timeouts
included — is caught by the fallback's own `except Exception` handler. -/
def validate_stream_url (url : List Char) (head get : ReqResult) :
    ProbeOutcome :=
  if (trim url).isEmpty then
    { is_working := false, response_time := 0,
      error_message := some (cs "Empty URL"), status_code := none }
  else
    match head with
    | .ok s t =>
      if s = 200 || s = 302 || s = 301 then
        { is_working := true, response_time := t,
          error_message := none, status_code := some s }
      else
        { is_working := false, response_time := t,
          error_message := some (httpErr s), status_code := some s }
    | .raised (.clientError _) _ =>
      match get with
      | .ok s t =>
        if s = 200 || s = 206 || s = 302 || s = 301 then
          { is_working := true, response_time := t,
            error_message := none, status_code := some s }
        else
          { is_working := false, response_time := t,
            error_message := some (httpErr s), status_code := some s }
      | .raised e t =>
        { is_working := false, response_time := t,
          error_message := some (pyStr e), status_code := none }
    | .raised .timeoutErr t =>
      { is_working := false, response_time := t,
        error_message := some (cs "Request timeout"), status_code := none }
    | .raised (.otherExc m) t =>
      { is_working := false, response_time := t,
        error_message := some m, status_code := none }

/-! ## The validation orchestrator: `validate_playlist`

The persistent state is modelled as explicit lists of rows.  Timestamps
(`datetime.utcnow()`) are modelled by a single `now` parameter; probe
outcomes come from an oracle `probe : List Char → ProbeOutcome` standing
for `validate_stream_url` applied to a URL under the run's network
conditions.  The batch partition (size 50) only affects when rows are
committed, not the final state, and per-channel exception filtering in
`validate_channels_batch` is not modelled (the probe oracle is total), so
the channel loop is modelled sequentially over the full scope. -/

structure Channel where
  id : Nat
  playlist_id : Nat
  name : List Char
  stream_url : List Char
  /-- the decoded `alternative_urls` JSON list; `[]` models both an empty
  list and a null/empty column (both make the fallback loop do nothing) -/
  alternative_urls : List (List Char)
  is_active : Bool
  is_working : Bool
  check_count : Nat
  failure_count : Nat
  response_time : Nat
  last_checked : Option Nat
  deriving Repr, DecidableEq

structure PlaylistRow where
  id : Nat
  is_active : Bool
  last_validated : Option Nat
  deriving Repr, DecidableEq

/-- The per-channel result dict built by `_validate_single_channel`. -/
structure ResultRec where
  channel_id : Nat
  channel_name : List Char
  stream_url : List Char
  is_working : Bool
  response_time : Nat
  error_message : Option (List Char)
  status_code : Option Nat
  deriving Repr, DecidableEq

/-- A `ValidationLog` row (status transitions happen inside one
database transactionless session; only the committed final row is
modelled). -/
structure LogRow where
  id : Nat
  playlist_id : Nat
  status : List Char
  total_channels : Nat
  working_channels : Nat
  failed_channels : Nat
  deriving Repr, DecidableEq

/-- A `ValidationResult` row. -/
structure ResultRow where
  validation_log_id : Nat
  channel_id : Nat
  is_working : Bool
  response_time : Nat
  status_code : Option Nat
  error_message : Option (List Char)
  deriving Repr, DecidableEq

structure DB where
  playlists : List PlaylistRow
  channels : List Channel
  logs : List LogRow
  results : List ResultRow
  deriving Repr, DecidableEq

/-- The summary dict returned by `validate_playlist`
(`validation_log_id` is absent — `none` — in the empty-scope return). -/
structure Summary where
  playlist_id : Nat
  validation_log_id : Option Nat
  total_channels : Nat
  working_channels : Nat
  failed_channels : Nat
  results : List ResultRec
  deriving Repr, DecidableEq

/-- The first URL of `alt_urls` whose probe succeeds, scanning in listed
order (the `for alt_url in alt_urls` loop with `break` on success). -/
def firstWorkingAlt (probe : List Char → ProbeOutcome) :
    List (List Char) → Option (List Char)
  | [] => none
  | u :: rest =>
    if (probe u).is_working then some u else firstWorkingAlt probe rest

/-- `_validate_single_channel`: probe the primary URL; on failure, if
alternates exist, probe them in order and promote the first working one
to `channel.stream_url`.  Returns the (possibly promoted) channel and
the result record. -/
def validateSingleChannel (probe : List Char → ProbeOutcome)
    (c : Channel) : Channel × ResultRec :=
  let p := probe c.stream_url
  let (c', outcome) :=
    if !p.is_working && !c.alternative_urls.isEmpty then
      match firstWorkingAlt probe c.alternative_urls with
      | some alt =>
        ({ c with stream_url := alt },
         { is_working := true, response_time := (probe alt).response_time,
           error_message := none, status_code := (probe alt).status_code,
           channel_id := c.id, channel_name := c.name, stream_url := alt })
      | none =>
        (c, { is_working := p.is_working, response_time := p.response_time,
              error_message := p.error_message, status_code := p.status_code,
              channel_id := c.id, channel_name := c.name,
              stream_url := c.stream_url })
    else
      (c, { is_working := p.is_working, response_time := p.response_time,
            error_message := p.error_message, status_code := p.status_code,
            channel_id := c.id, channel_name := c.name,
            stream_url := c.stream_url })
  (c', outcome)

/-- The per-channel status update of `validate_playlist`'s result loop. -/
def updateStatus (retry now : Nat) (c : Channel) (r : ResultRec) : Channel :=
  let c := { c with is_working := r.is_working, last_checked := some now,
                    check_count := c.check_count + 1,
                    response_time := r.response_time }
  if r.is_working then { c with failure_count := 0 }
  else
    let c := { c with failure_count := c.failure_count + 1 }
    if c.failure_count ≥ retry then { c with is_active := false } else c

/-- Update the first channel whose `id` matches (the
`db.query(Channel).filter(Channel.id == ...).first()` lookup); a missing
channel is skipped. -/
def updateFirstById (retry now : Nat) (chans : List Channel)
    (r : ResultRec) : List Channel :=
  match chans with
  | [] => []
  | c :: rest =>
    if c.id = r.channel_id then updateStatus retry now c r :: rest
    else c :: updateFirstById retry now rest r

/-- One step of the result loop: update the channel if found, and bump
the working/failed counters (only when the channel was found, as in the
code). -/
def applyResult (retry now : Nat) (st : List Channel × Nat × Nat)
    (r : ResultRec) : List Channel × Nat × Nat :=
  if st.1.any (fun c => c.id = r.channel_id) then
    (updateFirstById retry now st.1 r,
     if r.is_working then st.2.1 + 1 else st.2.1,
     if r.is_working then st.2.2 else st.2.2 + 1)
  else st

def applyResults (retry now : Nat) (chans : List Channel)
    (results : List ResultRec) : List Channel × Nat × Nat :=
  results.foldl (applyResult retry now) (chans, 0, 0)

/-- Whether a channel is in the scope of `validate_playlist(pid)`:
`Channel.playlist_id == playlist_id AND Channel.is_active == True`. -/
def inScope (pid : Nat) (c : Channel) : Bool :=
  c.playlist_id = pid && c.is_active

/-- `validate_playlist`.  `none` models the `ValueError` raised for a
missing playlist.  With an existing playlist: an empty active-channel
scope returns a zero summary without touching the database; otherwise
every scoped channel is probed (with alternate-URL promotion persisted
via the session), one `ValidationResult` row per scoped channel is
appended, channel status fields are updated by id, a completed
`ValidationLog` row is appended (its id modelled as the current log
count), and the playlist's `last_validated` is set. -/
def validate_playlist (retry now : Nat)
    (probe : List Char → ProbeOutcome) (db : DB) (pid : Nat) :
    Option (DB × Summary) :=
  if !(db.playlists.any (fun p => p.id = pid)) then none
  else
    let scope := db.channels.filter (inScope pid)
    if scope.isEmpty then
      some (db, { playlist_id := pid, validation_log_id := none,
                  total_channels := 0, working_channels := 0,
                  failed_channels := 0, results := [] })
    else
      let results := scope.map (fun c => (validateSingleChannel probe c).2)
      let chans1 := db.channels.map
        (fun c => if inScope pid c then (validateSingleChannel probe c).1 else c)
      let logId := db.logs.length
      let rows := results.map (fun r =>
        { validation_log_id := logId, channel_id := r.channel_id,
          is_working := r.is_working, response_time := r.response_time,
          status_code := r.status_code, error_message := r.error_message })
      let (chans2, workingCount, failedCount) :=
        applyResults retry now chans1 results
      let log : LogRow :=
        { id := logId, playlist_id := pid, status := cs "completed",
          total_channels := scope.length, working_channels := workingCount,
          failed_channels := failedCount }
      let playlists' := db.playlists.map
        (fun p => if p.id = pid then { p with last_validated := some now } else p)
      some ({ playlists := playlists', channels := chans2,
              logs := db.logs ++ [log], results := db.results ++ rows },
            { playlist_id := pid, validation_log_id := some logId,
              total_channels := results.length,
              working_channels := workingCount,
              failed_channels := failedCount, results := results })

/-! ## Deduplication lemmas -/

theorem dedupGo_sublist (rs : List Rec) :
    ∀ su sn, (dedupGo su sn rs).Sublist rs := by
  induction rs with
  | nil => intro su sn; simp [dedupGo]
  | cons c rest ih =>
    intro su sn
    unfold dedupGo
    by_cases h1 : urlKey c ∈ su
    · simp only [h1, if_pos, if_true]
      exact (ih su sn).cons c
    · simp only [h1, if_false]
      by_cases h2 : nameKey c ∈ sn
      · simp only [h2, if_true]
        exact (ih su sn).cons c
      · simp only [h2, if_false]
        exact (ih _ _).cons₂ c

theorem dedupGo_mem_url {r : Rec} {rs : List Rec} :
    ∀ {su sn}, r ∈ dedupGo su sn rs → urlKey r ∉ su := by
  induction rs with
  | nil => intro su sn h; simp [dedupGo] at h
  | cons c rest ih =>
    intro su sn h
    unfold dedupGo at h
    by_cases h1 : urlKey c ∈ su
    · simp only [h1, if_true] at h; exact ih h
    · simp only [h1, if_false] at h
      by_cases h2 : nameKey c ∈ sn
      · simp only [h2, if_true] at h; exact ih h
      · simp only [h2, if_false] at h
        rcases List.mem_cons.mp h with hc | hm
        · subst hc; exact h1
        · have := ih hm
          intro hin
          exact this (List.mem_cons_of_mem _ hin)

theorem dedupGo_mem_name {r : Rec} {rs : List Rec} :
    ∀ {su sn}, r ∈ dedupGo su sn rs → nameKey r ∉ sn := by
  induction rs with
  | nil => intro su sn h; simp [dedupGo] at h
  | cons c rest ih =>
    intro su sn h
    unfold dedupGo at h
    by_cases h1 : urlKey c ∈ su
    · simp only [h1, if_true] at h; exact ih h
    · simp only [h1, if_false] at h
      by_cases h2 : nameKey c ∈ sn
      · simp only [h2, if_true] at h; exact ih h
      · simp only [h2, if_false] at h
        rcases List.mem_cons.mp h with hc | hm
        · subst hc; exact h2
        · have := ih hm
          intro hin
          exact this (List.mem_cons_of_mem _ hin)

theorem dedupGo_pairwise_url (rs : List Rec) :
    ∀ su sn, (dedupGo su sn rs).Pairwise (fun a b => urlKey a ≠ urlKey b) := by
  induction rs with
  | nil => intro su sn; simp [dedupGo]
  | cons c rest ih =>
    intro su sn
    unfold dedupGo
    by_cases h1 : urlKey c ∈ su
    · simp only [h1, if_true]; exact ih su sn
    · simp only [h1, if_false]
      by_cases h2 : nameKey c ∈ sn
      · simp only [h2, if_true]; exact ih su sn
      · simp only [h2, if_false]
        refine List.Pairwise.cons ?_ (ih _ _)
        intro b hb heq
        have := dedupGo_mem_url hb
        exact this (heq ▸ List.mem_cons_self _ _)

theorem dedupGo_pairwise_name (rs : List Rec) :
    ∀ su sn, (dedupGo su sn rs).Pairwise (fun a b => nameKey a ≠ nameKey b) := by
  induction rs with
  | nil => intro su sn; simp [dedupGo]
  | cons c rest ih =>
    intro su sn
    unfold dedupGo
    by_cases h1 : urlKey c ∈ su
    · simp only [h1, if_true]; exact ih su sn
    · simp only [h1, if_false]
      by_cases h2 : nameKey c ∈ sn
      · simp only [h2, if_true]; exact ih su sn
      · simp only [h2, if_false]
        refine List.Pairwise.cons ?_ (ih _ _)
        intro b hb heq
        have := dedupGo_mem_name hb
        exact this (heq ▸ List.mem_cons_self _ _)

/-- Scenario B records. -/
def recB1 : Rec :=
  { name := some (cs "CNN"), group_title := some (cs "News"),
    stream_url := some (cs "http://a") }

def recB2 : Rec :=
  { name := some (cs "CNN"), group_title := some (cs "News"),
    stream_url := some (cs "http://b") }

def recB3 : Rec :=
  { name := some (cs "BBC"), group_title := some (cs "UK"),
    stream_url := some (cs "http://a") }

/-- C2.  Deduplication contract: `deduplicate_channels` is a single
left-to-right pass whose output is a subsequence of the input (first
occurrences survive, order preserved), no two survivors share a stream
address, no two survivors share a case-insensitive `name:group` composite
key, and scenario B's three records reduce to exactly the first. -/
theorem c2_deduplicate_contract :
    (∀ rs : List Rec,
      (deduplicate_channels rs).Sublist rs ∧
      (deduplicate_channels rs).Pairwise (fun a b => urlKey a ≠ urlKey b) ∧
      (deduplicate_channels rs).Pairwise (fun a b => nameKey a ≠ nameKey b)) ∧
    deduplicate_channels [recB1, recB2, recB3] = [recB1] := by
  constructor
  · intro rs
    exact ⟨dedupGo_sublist rs [] [], dedupGo_pairwise_url rs [] [],
      dedupGo_pairwise_name rs [] []⟩
  · decide

/-- Survivors of a pass whose seen-URL set already contains `""` never
include an address-less record. -/
theorem dedupGo_blocked {su sn : List (List Char)} (rs : List Rec)
    (h : [] ∈ su) :
    (dedupGo su sn rs).filter (fun r => (urlKey r).isEmpty) = [] := by
  rw [List.filter_eq_nil_iff]
  intro r hr hemp
  have := dedupGo_mem_url hr
  rw [List.isEmpty_iff] at hemp
  exact this (hemp ▸ h)

theorem dedupGo_atMostOne (rs : List Rec) :
    ∀ su sn,
      ((dedupGo su sn rs).filter (fun r => (urlKey r).isEmpty)).length ≤ 1 := by
  induction rs with
  | nil => intro su sn; simp [dedupGo]
  | cons c rest ih =>
    intro su sn
    unfold dedupGo
    by_cases h1 : urlKey c ∈ su
    · simp only [h1, if_true]; exact ih su sn
    · simp only [h1, if_false]
      by_cases h2 : nameKey c ∈ sn
      · simp only [h2, if_true]; exact ih su sn
      · simp only [h2, if_false]
        by_cases hemp : (urlKey c).isEmpty
        · have hblock : [] ∈ urlKey c :: su := by
            rw [List.isEmpty_iff] at hemp
            exact hemp ▸ List.mem_cons_self _ _
          simp [List.filter_cons, hemp, dedupGo_blocked rest hblock]
        · have hemp' : (urlKey c).isEmpty = false := by
            rwa [Bool.not_eq_true] at hemp
          simp only [List.filter_cons, hemp', Bool.false_eq_true, if_false]
          exact ih _ _

/-- C10 counterexample records: the first address-less record (`recC10b`)
is dropped for a name:group duplicate of `recC10a`, so `""` never enters
the seen-URL set and the *second* address-less record (`recC10c`)
survives. -/
def recC10a : Rec :=
  { name := some (cs "a"), group_title := some (cs "g"),
    stream_url := some (cs "u") }

def recC10b : Rec :=
  { name := some (cs "a"), group_title := some (cs "g"), stream_url := none }

def recC10c : Rec :=
  { name := some (cs "b"), group_title := some (cs "g"), stream_url := none }

/-- C10 counterexample: an input with two address-less records for which
the surviving address-less record is not the first one — refuting "only
the first such record survives, regardless of the later records' names
and groups". -/
theorem c10_counterexample :
    ([recC10a, recC10b, recC10c].filter
        (fun r => (urlKey r).isEmpty)).length = 2 ∧
    [recC10a, recC10b, recC10c].find? (fun r => (urlKey r).isEmpty)
        = some recC10b ∧
    deduplicate_channels [recC10a, recC10b, recC10c] = [recC10a, recC10c] ∧
    recC10b ∉ deduplicate_channels [recC10a, recC10b, recC10c] ∧
    recC10c ∈ deduplicate_channels [recC10a, recC10b, recC10c] ∧
    recC10c ≠ recC10b := by
  refine ⟨by decide, by decide, by decide, by decide, by decide, by decide⟩

/-- C10 (amended).  A missing or empty stream address is one shared
seen-address key, so at most one address-less record ever survives
`deduplicate_channels`; and when the sequence *begins* with an
address-less record, that record is the unique address-less survivor,
regardless of the later records' names and groups.  (The surviving
address-less record need not be the first address-less record of the
input: an earlier one dropped for a `name:group` duplicate does not enter
the seen-address set.) -/
theorem c10_addressless_dedup (rs : List Rec) :
    ((deduplicate_channels rs).filter (fun r => (urlKey r).isEmpty)).length ≤ 1 ∧
    (∀ r rest, rs = r :: rest → (urlKey r).isEmpty = true →
      (deduplicate_channels rs).filter (fun r => (urlKey r).isEmpty) = [r]) := by
  constructor
  · exact dedupGo_atMostOne rs [] []
  · intro r rest hrs hemp
    subst hrs
    unfold deduplicate_channels dedupGo
    simp only [List.not_mem_nil, if_false]
    have hblock : [] ∈ [urlKey r] := by
      rw [List.isEmpty_iff] at hemp
      exact hemp ▸ List.mem_cons_self _ _
    simp [List.filter_cons, hemp, dedupGo_blocked rest hblock]

/-- Witness for the hypotheses of `c10_addressless_dedup`: the
head-address-less case at a concrete input. -/
theorem c10_addressless_dedup_witness :
    ([recC10b, recC10c] = recC10b :: [recC10c] ∧
      (urlKey recC10b).isEmpty = true) ∧
    (deduplicate_channels [recC10b, recC10c]).filter
        (fun r => (urlKey r).isEmpty) = [recC10b] :=
  ⟨⟨rfl, by decide⟩,
    (c10_addressless_dedup [recC10b, recC10c]).2 recC10b [recC10c] rfl
      (by decide)⟩

/-! ## Prober claims -/

/-- C4.  Two-stage acceptance for a non-blank address: the lightweight
`HEAD` check alone decides when it returns a status, accepting exactly
{200, 301, 302}; the ranged-`GET` fallback decides when the `HEAD` raised
`aiohttp.ClientError`, accepting exactly {200, 206, 301, 302}; any other
status at either stage yields `working = false` with that status code and
an `HTTP <status>` error recorded; and when the `HEAD` resolves any other
way (a status, a timeout, or a non-transport exception), the fallback
request is never consulted. -/
theorem c4_prober_two_stage (url : List Char) (head get : ReqResult)
    (hne : (trim url).isEmpty = false) :
    (∀ s t, head = .ok s t →
      ((validate_stream_url url head get).is_working = true ↔
          (s = 200 ∨ s = 301 ∨ s = 302)) ∧
      (validate_stream_url url head get).status_code = some s ∧
      (¬(s = 200 ∨ s = 301 ∨ s = 302) →
        validate_stream_url url head get =
          { is_working := false, response_time := t,
            error_message := some (httpErr s), status_code := some s })) ∧
    (∀ m th s t, head = .raised (.clientError m) th → get = .ok s t →
      ((validate_stream_url url head get).is_working = true ↔
          (s = 200 ∨ s = 206 ∨ s = 301 ∨ s = 302)) ∧
      (validate_stream_url url head get).status_code = some s ∧
      (¬(s = 200 ∨ s = 206 ∨ s = 301 ∨ s = 302) →
        validate_stream_url url head get =
          { is_working := false, response_time := t,
            error_message := some (httpErr s), status_code := some s })) ∧
    ((∀ m t, head ≠ .raised (.clientError m) t) →
      ∀ get', validate_stream_url url head get' =
        validate_stream_url url head get) := by
  refine ⟨?_, ?_, ?_⟩
  · rintro s t rfl
    by_cases hs : s = 200 ∨ s = 302 ∨ s = 301
    · have hval : validate_stream_url url (.ok s t) get =
          { is_working := true, response_time := t,
            error_message := none, status_code := some s } := by
        unfold validate_stream_url
        rcases hs with h | h | h <;> simp [hne, h]
      rw [hval]
      refine ⟨by simp; tauto, rfl, fun hno => absurd (by tauto) hno⟩
    · have hval : validate_stream_url url (.ok s t) get =
          { is_working := false, response_time := t,
            error_message := some (httpErr s), status_code := some s } := by
        unfold validate_stream_url
        push_neg at hs
        simp [hne, hs.1, hs.2.1, hs.2.2]
      rw [hval]
      refine ⟨by simp; tauto, rfl, fun _ => rfl⟩
  · rintro m th s t rfl rfl
    by_cases hs : s = 200 ∨ s = 206 ∨ s = 302 ∨ s = 301
    · have hval : validate_stream_url url
          (.raised (.clientError m) th) (.ok s t) =
          { is_working := true, response_time := t,
            error_message := none, status_code := some s } := by
        unfold validate_stream_url
        rcases hs with h | h | h | h <;> simp [hne, h]
      rw [hval]
      refine ⟨by simp; tauto, rfl, fun hno => absurd (by tauto) hno⟩
    · have hval : validate_stream_url url
          (.raised (.clientError m) th) (.ok s t) =
          { is_working := false, response_time := t,
            error_message := some (httpErr s), status_code := some s } := by
        unfold validate_stream_url
        push_neg at hs
        simp [hne, hs.1, hs.2.1, hs.2.2.1, hs.2.2.2]
      rw [hval]
      refine ⟨by simp; tauto, rfl, fun _ => rfl⟩
  · intro hnc get'
    match head with
    | .ok s t => rfl
    | .raised (.clientError m) t => exact absurd rfl (hnc m t)
    | .raised .timeoutErr t => rfl
    | .raised (.otherExc m) t => rfl

/-- Witness for `c4_prober_two_stage`: a concrete non-blank URL whose
`HEAD` returns 200. -/
theorem c4_prober_two_stage_witness :
    (trim (cs "http://x")).isEmpty = false ∧
    (validate_stream_url (cs "http://x") (.ok 200 5) (.ok 404 7)).is_working
      = true :=
  ⟨by decide, by
    have h := (c4_prober_two_stage (cs "http://x") (.ok 200 5) (.ok 404 7)
      (by decide)).1 200 5 rfl
    exact h.1.mpr (Or.inl rfl)⟩

/-- C7 counterexample: a timeout during the ranged-`GET` fallback is
caught by the fallback's generic `except Exception` handler, so the
outcome's error is `str(asyncio.TimeoutError())` — the empty string — and
not the distinguished `"Request timeout"` value the claim requires for a
timeout at any stage. -/
theorem c7_counterexample :
    validate_stream_url (cs "http://x")
        (.raised (.clientError (cs "conn reset")) 5) (.raised .timeoutErr 9) =
      { is_working := false, response_time := 9,
        error_message := some [], status_code := none } ∧
    (validate_stream_url (cs "http://x")
        (.raised (.clientError (cs "conn reset")) 5)
        (.raised .timeoutErr 9)).error_message ≠
      some (cs "Request timeout") := by
  refine ⟨by decide, by decide⟩

/-- C7 (amended).  A probe never raises (the model is a total function);
a timeout during the *lightweight* check yields `working = false` with the
distinguished `"Request timeout"` error and the elapsed time at
cancellation; but a timeout during the bounded-body fallback is caught by
the fallback's own generic handler and recorded as the exception's string
rendering (the empty string for an argument-less `asyncio.TimeoutError`),
not the distinguished value.  In both cases `working = false`. -/
theorem c7_timeout_outcomes (url : List Char) (head get : ReqResult)
    (hne : (trim url).isEmpty = false) :
    (∀ t, head = .raised .timeoutErr t →
      validate_stream_url url head get =
        { is_working := false, response_time := t,
          error_message := some (cs "Request timeout"), status_code := none }) ∧
    (∀ m th t, head = .raised (.clientError m) th →
      get = .raised .timeoutErr t →
      validate_stream_url url head get =
        { is_working := false, response_time := t,
          error_message := some (pyStr .timeoutErr), status_code := none } ∧
      pyStr PyExc.timeoutErr ≠ cs "Request timeout") := by
  constructor
  · rintro t rfl
    unfold validate_stream_url
    simp [hne]
  · rintro m th t rfl rfl
    refine ⟨?_, by decide⟩
    unfold validate_stream_url
    simp [hne]

/-- Witness for `c7_timeout_outcomes`: a concrete lightweight-stage
timeout. -/
theorem c7_timeout_outcomes_witness :
    ((trim (cs "http://x")).isEmpty = false ∧
      ReqResult.raised PyExc.timeoutErr 4 = .raised .timeoutErr 4) ∧
    validate_stream_url (cs "http://x") (.raised .timeoutErr 4) (.ok 200 9) =
      { is_working := false, response_time := 4,
        error_message := some (cs "Request timeout"), status_code := none } :=
  ⟨⟨by decide, rfl⟩,
    (c7_timeout_outcomes (cs "http://x") (.raised .timeoutErr 4) (.ok 200 9)
      (by decide)).1 4 rfl⟩

/-! ## Consolidation write (C6) -/

/-- C6.  The artifact write is *not* atomic: `open(path, 'w')` truncates
in place, so a write failing mid-way leaves a strict prefix of the new
text — neither the previous artifact contents nor the full generated
text.  Evaluated at the failing input: previous artifact `"OLD"`, empty
channel list (generated text `"#EXTM3U"`), write failing after 3
characters.  A successful write does produce exactly the generated
text, and the failure propagates as an exception. -/
theorem c6_write_not_atomic :
    (save_m3u_file [] (cs "OLD") (.failAfter 3)).2 = cs "#EX" ∧
    (save_m3u_file [] (cs "OLD") (.failAfter 3)).2 ≠ cs "OLD" ∧
    (save_m3u_file [] (cs "OLD") (.failAfter 3)).2 ≠
      generate_m3u_content [] ∧
    (save_m3u_file [] (cs "OLD") (.failAfter 3)).1.isSome = true ∧
    (save_m3u_file [] (cs "OLD") .success).2 = generate_m3u_content [] := by
  refine ⟨by decide, by decide, by decide, by decide, by decide⟩

/-! ## Display-name extraction (C8) -/

/-- Modelled from the spec: the display name is "the free text appearing
after the *last* comma on the line", stripped. -/
def displayNameAfterLastComma (line : List Char) : Option (List Char) :=
  if ',' ∈ line then
    some (trim (line.reverse.takeWhile (fun c => !(c = ','))).reverse)
  else none

/-- C8: the code extracts the display name as everything after the
*first* comma of the line (`re.search(r',(.+)$', line)` matches at the
leftmost comma), not after the last comma as the spec (and the code's own
comment) state.  Evaluated at the failing input `#EXTINF:-1,A,B`: the
code's name is `"A,B"`, the spec's is `"B"`. -/
theorem c8_first_comma_not_last :
    (parse_extinf_line (cs "#EXTINF:-1,A,B")).name = some (cs "A,B") ∧
    displayNameAfterLastComma (cs "#EXTINF:-1,A,B") = some (cs "B") ∧
    cs "A,B" ≠ cs "B" := by
  refine ⟨by decide, by decide, by decide⟩

/-! ## Orchestrator lemmas -/

theorem map_eq_self_of {α : Type} (f : α → α) (l : List α)
    (h : ∀ x ∈ l, f x = x) : l.map f = l := by
  induction l with
  | nil => rfl
  | cons a as ih =>
    simp only [List.map_cons, h a (List.mem_cons_self a as)]
    rw [ih (fun x hx => h x (List.mem_cons_of_mem a hx))]

theorem nodup_map_inj {α β : Type} {f : α → β} {l : List α}
    (h : (l.map f).Nodup) :
    ∀ a ∈ l, ∀ b ∈ l, f a = f b → a = b := by
  induction l with
  | nil => intro a ha; simp at ha
  | cons c rest ih =>
    simp only [List.map_cons, List.nodup_cons] at h
    intro a ha b hb heq
    rcases List.mem_cons.mp ha with rfl | ha' <;>
      rcases List.mem_cons.mp hb with rfl | hb'
    · rfl
    · exact absurd (heq ▸ List.mem_map_of_mem f hb') h.1
    · exact absurd (heq ▸ List.mem_map_of_mem f ha') h.1
    · exact ih h.2 a ha' b hb' heq

/-- Generic: finding the image of a member by its key in a mapped list,
when keys are distinct. -/
theorem find?_map_key {α β : Type} (l : List α) (key : α → Nat)
    (g : α → β) (keyb : β → Nat) (hg : ∀ a, keyb (g a) = key a)
    (hnd : (l.map key).Nodup) {c : α} (hc : c ∈ l) :
    (l.map g).find? (fun b => keyb b = key c) = some (g c) := by
  induction l with
  | nil => simp at hc
  | cons d rest ih =>
    simp only [List.map_cons, List.nodup_cons] at hnd
    rcases List.mem_cons.mp hc with rfl | hc'
    · simp [List.find?_cons, hg]
    · have hne : key d ≠ key c := by
        intro he
        exact hnd.1 (he ▸ List.mem_map_of_mem key hc')
      rw [List.map_cons, List.find?_cons]
      have : (decide (keyb (g d) = key c)) = false := by
        simp [hg, hne]
      rw [this]
      exact ih hnd.2 hc'

theorem find?_map_key_none {α β : Type} (l : List α) (key : α → Nat)
    (g : α → β) (keyb : β → Nat) (hg : ∀ a, keyb (g a) = key a)
    {k : Nat} (hk : ∀ a ∈ l, key a ≠ k) :
    (l.map g).find? (fun b => keyb b = k) = none := by
  induction l with
  | nil => rfl
  | cons d rest ih =>
    rw [List.map_cons, List.find?_cons]
    have : (decide (keyb (g d) = k)) = false := by
      simp [hg, hk d (List.mem_cons_self d rest)]
    rw [this]
    exact ih (fun a ha => hk a (List.mem_cons_of_mem d ha))

/-- `_validate_single_channel` can only change the channel's
`stream_url` field (alternate promotion); everything else is untouched. -/
theorem vsc_fst_shape (probe : List Char → ProbeOutcome) (c : Channel) :
    (validateSingleChannel probe c).1 =
      { c with stream_url := (validateSingleChannel probe c).1.stream_url } := by
  unfold validateSingleChannel
  dsimp only
  by_cases hw : (!(probe c.stream_url).is_working &&
      !c.alternative_urls.isEmpty) = true
  · rw [if_pos hw]
    cases firstWorkingAlt probe c.alternative_urls <;> rfl
  · rw [if_neg hw]

theorem vsc_snd_id (probe : List Char → ProbeOutcome) (c : Channel) :
    (validateSingleChannel probe c).2.channel_id = c.id := by
  unfold validateSingleChannel
  dsimp only
  by_cases hw : (!(probe c.stream_url).is_working &&
      !c.alternative_urls.isEmpty) = true
  · rw [if_pos hw]
    cases firstWorkingAlt probe c.alternative_urls <;> rfl
  · rw [if_neg hw]

theorem vsc_fst_id (probe : List Char → ProbeOutcome) (c : Channel) :
    (validateSingleChannel probe c).1.id = c.id := by
  rw [vsc_fst_shape probe c]

theorem updateStatus_id (retry now : Nat) (c : Channel) (r : ResultRec) :
    (updateStatus retry now c r).id = c.id := by
  unfold updateStatus
  by_cases hw : r.is_working
  · simp [hw]
  · simp only [hw, Bool.false_eq_true, if_false]
    split <;> rfl

theorem updateStatus_is_working (retry now : Nat) (c : Channel)
    (r : ResultRec) :
    (updateStatus retry now c r).is_working = r.is_working := by
  unfold updateStatus
  by_cases hw : r.is_working
  · simp [hw]
  · simp only [hw, Bool.false_eq_true, if_false]
    split <;> simp [hw]

theorem updateStatus_success (retry now : Nat) (c : Channel)
    (r : ResultRec) (hw : r.is_working = true) :
    (updateStatus retry now c r).failure_count = 0 := by
  unfold updateStatus
  simp [hw]

theorem updateStatus_failure (retry now : Nat) (c : Channel)
    (r : ResultRec) (hw : r.is_working = false) :
    (updateStatus retry now c r).failure_count = c.failure_count + 1 := by
  unfold updateStatus
  simp only [hw, Bool.false_eq_true, if_false]
  split <;> rfl

theorem updateStatus_deactivate (retry now : Nat) (c : Channel)
    (r : ResultRec) (hw : r.is_working = false)
    (hth : retry ≤ c.failure_count + 1) :
    (updateStatus retry now c r).is_active = false := by
  unfold updateStatus
  simp only [hw, Bool.false_eq_true, if_false]
  rw [if_pos hth]

theorem updateStatus_active_mono (retry now : Nat) (c : Channel)
    (r : ResultRec) :
    (updateStatus retry now c r).is_active = true → c.is_active = true := by
  unfold updateStatus
  by_cases hw : r.is_working
  · simp [hw]
  · simp only [hw, Bool.false_eq_true, if_false]
    split
    · intro h; simp at h
    · exact fun h => h

/-- C9.  An existing playlist whose active-channel scope is empty: the
run returns the all-zero summary with an empty result list and leaves the
database — channels, validation logs, outcome rows, playlists — entirely
untouched (no `ValidationLog` row and no `ValidationResult` rows are
created). -/
theorem c9_empty_scope (retry now : Nat) (probe : List Char → ProbeOutcome)
    (db : DB) (pid : Nat)
    (hp : db.playlists.any (fun p => p.id = pid) = true)
    (hz : db.channels.filter (inScope pid) = []) :
    validate_playlist retry now probe db pid =
      some (db, { playlist_id := pid, validation_log_id := none,
                  total_channels := 0, working_channels := 0,
                  failed_channels := 0, results := [] }) := by
  unfold validate_playlist
  simp [hp, hz]

/-- Witness for `c9_empty_scope`: a playlist whose only channel is
inactive. -/
theorem c9_empty_scope_witness :
    (([⟨(1 : Nat), true, none⟩] : List PlaylistRow).any
        (fun p => p.id = 1) = true ∧
      (DB.mk [⟨1, true, none⟩]
        [⟨7, 1, cs "X", cs "http://x", [], false, true, 0, 0, 0, none⟩]
        [] []).channels.filter (inScope 1) = []) ∧
    validate_playlist 3 100 (fun _ => ⟨true, 1, none, some 200⟩)
      (DB.mk [⟨1, true, none⟩]
        [⟨7, 1, cs "X", cs "http://x", [], false, true, 0, 0, 0, none⟩]
        [] []) 1 =
      some (DB.mk [⟨1, true, none⟩]
        [⟨7, 1, cs "X", cs "http://x", [], false, true, 0, 0, 0, none⟩]
        [] [],
        { playlist_id := 1, validation_log_id := none, total_channels := 0,
          working_channels := 0, failed_channels := 0, results := [] }) :=
  ⟨⟨by decide, by decide⟩,
    c9_empty_scope 3 100 (fun _ => ⟨true, 1, none, some 200⟩)
      (DB.mk [⟨1, true, none⟩]
        [⟨7, 1, cs "X", cs "http://x", [], false, true, 0, 0, 0, none⟩]
        [] []) 1 (by decide) (by decide)⟩

/-- The effect of the whole result loop on the channel table, described
per channel: each channel is updated with the unique result carrying its
id, if any. -/
def applyAll (retry now : Nat) (results : List ResultRec)
    (chans : List Channel) : List Channel :=
  chans.map (fun c =>
    match results.find? (fun r => r.channel_id = c.id) with
    | some r => updateStatus retry now c r
    | none => c)

theorem updateFirstById_ids (retry now : Nat) (chans : List Channel)
    (r : ResultRec) :
    (updateFirstById retry now chans r).map (fun c => c.id) =
      chans.map (fun c => c.id) := by
  induction chans with
  | nil => rfl
  | cons d rest ih =>
    unfold updateFirstById
    by_cases hd : d.id = r.channel_id
    · simp [hd, updateStatus_id]
    · simp [hd, ih]

theorem updateFirstById_eq_map (retry now : Nat) {chans : List Channel}
    (r : ResultRec) (hnd : (chans.map (fun c => c.id)).Nodup) :
    updateFirstById retry now chans r =
      chans.map (fun c =>
        if c.id = r.channel_id then updateStatus retry now c r else c) := by
  induction chans with
  | nil => rfl
  | cons d rest ih =>
    simp only [List.map_cons, List.nodup_cons] at hnd
    unfold updateFirstById
    by_cases hd : d.id = r.channel_id
    · simp only [hd, if_true, if_pos rfl, List.map_cons]
      rw [map_eq_self_of]
      intro x hx
      have : x.id ≠ r.channel_id := by
        intro he
        exact hnd.1 ((hd ▸ he) ▸ List.mem_map_of_mem (fun c => c.id) hx)
      rw [if_neg this]
    · simp only [hd, if_false, List.map_cons]
      rw [ih hnd.2]

theorem applyResults_go (retry now : Nat) (results : List ResultRec) :
    ∀ (chans : List Channel) (w0 f0 : Nat),
      (chans.map (fun c => c.id)).Nodup →
      (∀ r ∈ results, r.channel_id ∈ chans.map (fun c => c.id)) →
      (results.map (fun r => r.channel_id)).Nodup →
      results.foldl (applyResult retry now) (chans, w0, f0) =
        (applyAll retry now results chans,
         w0 + (results.filter (fun r => r.is_working)).length,
         f0 + (results.filter (fun r => !r.is_working)).length) := by
  induction results with
  | nil =>
    intro chans w0 f0 hnd hsub hrnd
    simp only [List.foldl_nil, List.filter_nil, List.length_nil, Nat.add_zero]
    unfold applyAll
    rw [map_eq_self_of]
    intro x _
    simp [List.find?_nil]
  | cons r rs ih =>
    intro chans w0 f0 hnd hsub hrnd
    simp only [List.map_cons, List.nodup_cons] at hrnd
    have hfound : chans.any (fun c => c.id = r.channel_id) = true := by
      have := hsub r (List.mem_cons_self r rs)
      rw [List.mem_map] at this
      obtain ⟨c, hc, hcid⟩ := this
      rw [List.any_eq_true]
      exact ⟨c, hc, by simp [hcid]⟩
    rw [List.foldl_cons]
    have hstep : applyResult retry now (chans, w0, f0) r =
        (updateFirstById retry now chans r,
         if r.is_working then w0 + 1 else w0,
         if r.is_working then f0 else f0 + 1) := by
      unfold applyResult
      rw [if_pos hfound]
    rw [hstep]
    have hids := updateFirstById_ids retry now chans r
    have hnd' : ((updateFirstById retry now chans r).map
        (fun c => c.id)).Nodup := hids ▸ hnd
    have hsub' : ∀ r' ∈ rs, r'.channel_id ∈
        (updateFirstById retry now chans r).map (fun c => c.id) := by
      intro r' hr'
      rw [hids]
      exact hsub r' (List.mem_cons_of_mem r hr')
    rw [ih _ _ _ hnd' hsub' hrnd.2]
    refine congrArg₂ Prod.mk ?_ (congrArg₂ Prod.mk ?_ ?_)
    · -- channel table: fold of one step then the rest = applyAll of all
      rw [updateFirstById_eq_map retry now r hnd]
      unfold applyAll
      rw [List.map_map]
      apply List.map_congr_left
      intro c hc
      simp only [Function.comp_apply]
      by_cases hcid : c.id = r.channel_id
      · rw [if_pos hcid]
        have hupdid : (updateStatus retry now c r).id = c.id :=
          updateStatus_id retry now c r
        have hnone : rs.find?
            (fun r' => r'.channel_id = (updateStatus retry now c r).id)
              = none := by
          rw [List.find?_eq_none]
          intro r' hr'
          simp only [hupdid, hcid, decide_eq_true_eq]
          intro he
          exact hrnd.1 (he ▸ List.mem_map_of_mem (fun x => x.channel_id) hr')
        rw [hnone]
        have hhead : (r :: rs).find? (fun r' => r'.channel_id = c.id)
            = some r := by
          rw [List.find?_cons]
          have : (decide (r.channel_id = c.id)) = true := by
            simp [hcid]
          rw [this]
        rw [hhead]
      · rw [if_neg hcid]
        have htail : (r :: rs).find? (fun r' => r'.channel_id = c.id)
            = rs.find? (fun r' => r'.channel_id = c.id) := by
          rw [List.find?_cons]
          have : (decide (r.channel_id = c.id)) = false := by
            simp
            intro he
            exact hcid he.symm
          rw [this]
        rw [htail]
    · by_cases hw : r.is_working <;>
        simp [hw, List.filter_cons] <;> omega
    · by_cases hw : r.is_working <;>
        simp [hw, List.filter_cons] <;> omega

theorem applyResults_char (retry now : Nat) (results : List ResultRec)
    (chans : List Channel)
    (hnd : (chans.map (fun c => c.id)).Nodup)
    (hsub : ∀ r ∈ results, r.channel_id ∈ chans.map (fun c => c.id))
    (hrnd : (results.map (fun r => r.channel_id)).Nodup) :
    applyResults retry now chans results =
      (applyAll retry now results chans,
       (results.filter (fun r => r.is_working)).length,
       (results.filter (fun r => !r.is_working)).length) := by
  unfold applyResults
  rw [applyResults_go retry now results chans 0 0 hnd hsub hrnd]
  simp

/-- The channel state persisted for an in-scope channel after a run:
the result-loop status update applied to the (possibly
alternate-promoted) session object. -/
def finalChannel (retry now : Nat) (probe : List Char → ProbeOutcome)
    (c : Channel) : Channel :=
  updateStatus retry now (validateSingleChannel probe c).1
    (validateSingleChannel probe c).2

/-- The database after `validate_playlist` (unchanged when the playlist
is missing, i.e. when the call raises). -/
def runDB (retry now : Nat) (probe : List Char → ProbeOutcome) (db : DB)
    (pid : Nat) : DB :=
  ((validate_playlist retry now probe db pid).map Prod.fst).getD db

theorem validate_playlist_empty_eq (retry now : Nat)
    (probe : List Char → ProbeOutcome) (db : DB) (pid : Nat)
    (hp : db.playlists.any (fun p => p.id = pid) = true)
    (hz : db.channels.filter (inScope pid) = []) :
    validate_playlist retry now probe db pid =
      some (db, { playlist_id := pid, validation_log_id := none,
                  total_channels := 0, working_channels := 0,
                  failed_channels := 0, results := [] }) := by
  unfold validate_playlist
  simp [hp, hz]

theorem runDB_empty (retry now : Nat) (probe : List Char → ProbeOutcome)
    (db : DB) (pid : Nat)
    (hp : db.playlists.any (fun p => p.id = pid) = true)
    (hz : db.channels.filter (inScope pid) = []) :
    runDB retry now probe db pid = db := by
  unfold runDB
  rw [validate_playlist_empty_eq retry now probe db pid hp hz]
  rfl

/-- The ids of the channel table after promotion are unchanged. -/
theorem chans1_ids (probe : List Char → ProbeOutcome) (db : DB) (pid : Nat) :
    ((db.channels.map (fun c =>
        if inScope pid c then (validateSingleChannel probe c).1 else c)).map
      (fun c => c.id)) = db.channels.map (fun c => c.id) := by
  rw [List.map_map]
  apply List.map_congr_left
  intro c _
  simp only [Function.comp_apply]
  by_cases hs : inScope pid c
  · rw [if_pos hs, vsc_fst_id]
  · rw [if_neg hs]

/-- The channel ids carried by the per-channel results are the scope's
channel ids. -/
theorem results_ids (probe : List Char → ProbeOutcome) (scope : List Channel) :
    ((scope.map (fun c => (validateSingleChannel probe c).2)).map
      (fun r => r.channel_id)) = scope.map (fun c => c.id) := by
  rw [List.map_map]
  apply List.map_congr_left
  intro c _
  simp only [Function.comp_apply]
  exact vsc_snd_id probe c

/-- Shape of a completed (non-empty-scope) run. -/
theorem validate_playlist_some_eq (retry now : Nat)
    (probe : List Char → ProbeOutcome) (db : DB) (pid : Nat)
    (hp : db.playlists.any (fun p => p.id = pid) = true)
    (hne : (db.channels.filter (inScope pid)).isEmpty = false) :
    validate_playlist retry now probe db pid =
      some
        ({ playlists := db.playlists.map (fun p =>
              if p.id = pid then { p with last_validated := some now } else p),
           channels := (applyResults retry now
             (db.channels.map (fun c =>
               if inScope pid c then (validateSingleChannel probe c).1 else c))
             ((db.channels.filter (inScope pid)).map
               (fun c => (validateSingleChannel probe c).2))).1,
           logs := db.logs ++
             [{ id := db.logs.length, playlist_id := pid,
                status := cs "completed",
                total_channels := (db.channels.filter (inScope pid)).length,
                working_channels := (applyResults retry now
                  (db.channels.map (fun c =>
                    if inScope pid c then (validateSingleChannel probe c).1
                    else c))
                  ((db.channels.filter (inScope pid)).map
                    (fun c => (validateSingleChannel probe c).2))).2.1,
                failed_channels := (applyResults retry now
                  (db.channels.map (fun c =>
                    if inScope pid c then (validateSingleChannel probe c).1
                    else c))
                  ((db.channels.filter (inScope pid)).map
                    (fun c => (validateSingleChannel probe c).2))).2.2 }],
           results := db.results ++
             ((db.channels.filter (inScope pid)).map
               (fun c => (validateSingleChannel probe c).2)).map (fun r =>
                 { validation_log_id := db.logs.length,
                   channel_id := r.channel_id, is_working := r.is_working,
                   response_time := r.response_time,
                   status_code := r.status_code,
                   error_message := r.error_message }) },
         { playlist_id := pid, validation_log_id := some db.logs.length,
           total_channels := ((db.channels.filter (inScope pid)).map
             (fun c => (validateSingleChannel probe c).2)).length,
           working_channels := (applyResults retry now
             (db.channels.map (fun c =>
               if inScope pid c then (validateSingleChannel probe c).1 else c))
             ((db.channels.filter (inScope pid)).map
               (fun c => (validateSingleChannel probe c).2))).2.1,
           failed_channels := (applyResults retry now
             (db.channels.map (fun c =>
               if inScope pid c then (validateSingleChannel probe c).1 else c))
             ((db.channels.filter (inScope pid)).map
               (fun c => (validateSingleChannel probe c).2))).2.2,
           results := (db.channels.filter (inScope pid)).map
             (fun c => (validateSingleChannel probe c).2) }) := by
  unfold validate_playlist
  simp only [hp, hne, Bool.not_true, Bool.false_eq_true, if_false]

/-- After a completed non-empty run the channel table is exactly: every
in-scope channel replaced by its `finalChannel`, every other channel
untouched. -/
theorem runDB_channels (retry now : Nat) (probe : List Char → ProbeOutcome)
    (db : DB) (pid : Nat)
    (hp : db.playlists.any (fun p => p.id = pid) = true)
    (hnd : (db.channels.map (fun c => c.id)).Nodup)
    (hne : (db.channels.filter (inScope pid)).isEmpty = false) :
    (runDB retry now probe db pid).channels =
      db.channels.map (fun c =>
        if inScope pid c then finalChannel retry now probe c else c) := by
  unfold runDB
  rw [validate_playlist_some_eq retry now probe db pid hp hne]
  show (applyResults retry now _ _).1 = _
  have hnd1 : ((db.channels.map (fun c =>
      if inScope pid c then (validateSingleChannel probe c).1 else c)).map
        (fun c => c.id)).Nodup := by
    rw [chans1_ids]; exact hnd
  have hscope_nd : ((db.channels.filter (inScope pid)).map
      (fun c => c.id)).Nodup :=
    ((List.filter_sublist db.channels).map (fun c => c.id)).nodup hnd
  have hrnd : (((db.channels.filter (inScope pid)).map
      (fun c => (validateSingleChannel probe c).2)).map
        (fun r => r.channel_id)).Nodup := by
    rw [results_ids]; exact hscope_nd
  have hsub : ∀ r ∈ (db.channels.filter (inScope pid)).map
      (fun c => (validateSingleChannel probe c).2),
      r.channel_id ∈ (db.channels.map (fun c =>
        if inScope pid c then (validateSingleChannel probe c).1 else c)).map
          (fun c => c.id) := by
    intro r hr
    rw [List.mem_map] at hr
    obtain ⟨c, hc, rfl⟩ := hr
    rw [chans1_ids, vsc_snd_id, List.mem_map]
    exact ⟨c, (List.mem_filter.mp hc).1, rfl⟩
  rw [applyResults_char retry now _ _ hnd1 hsub hrnd]
  unfold applyAll
  rw [List.map_map]
  apply List.map_congr_left
  intro c hc
  simp only [Function.comp_apply]
  by_cases hs : inScope pid c
  · rw [if_pos hs, if_pos hs]
    have hid : (validateSingleChannel probe c).1.id = c.id := vsc_fst_id probe c
    have hfind : ((db.channels.filter (inScope pid)).map
        (fun c => (validateSingleChannel probe c).2)).find?
          (fun r => r.channel_id = (validateSingleChannel probe c).1.id)
        = some ((validateSingleChannel probe c).2) := by
      rw [hid]
      exact find?_map_key (db.channels.filter (inScope pid))
        (fun c => c.id) (fun c => (validateSingleChannel probe c).2)
        (fun r => r.channel_id) (vsc_snd_id probe) hscope_nd
        (List.mem_filter.mpr ⟨hc, hs⟩)
    rw [hfind]
    rfl
  · rw [if_neg hs, if_neg hs]
    have hfind : ((db.channels.filter (inScope pid)).map
        (fun c => (validateSingleChannel probe c).2)).find?
          (fun r => r.channel_id = c.id) = none := by
      apply find?_map_key_none (db.channels.filter (inScope pid))
        (fun c => c.id) (fun c => (validateSingleChannel probe c).2)
        (fun r => r.channel_id) (vsc_snd_id probe)
      intro d hd he
      have hdmem := List.mem_filter.mp hd
      have : d = c := nodup_map_inj hnd d hdmem.1 c hc he
      rw [this] at hdmem
      exact absurd hdmem.2 (by simp [hs])
    rw [hfind]

/-- After a completed non-empty run the outcome-row table is the old one
plus one row per scoped channel, in scope order, tagged with the new log
id. -/
theorem runDB_results (retry now : Nat) (probe : List Char → ProbeOutcome)
    (db : DB) (pid : Nat)
    (hp : db.playlists.any (fun p => p.id = pid) = true)
    (hne : (db.channels.filter (inScope pid)).isEmpty = false) :
    (runDB retry now probe db pid).results =
      db.results ++
        ((db.channels.filter (inScope pid)).map
          (fun c => (validateSingleChannel probe c).2)).map (fun r =>
            { validation_log_id := db.logs.length,
              channel_id := r.channel_id, is_working := r.is_working,
              response_time := r.response_time, status_code := r.status_code,
              error_message := r.error_message }) := by
  unfold runDB
  rw [validate_playlist_some_eq retry now probe db pid hp hne]
  rfl

theorem vsc_fst_failure_count (probe : List Char → ProbeOutcome)
    (c : Channel) :
    (validateSingleChannel probe c).1.failure_count = c.failure_count := by
  rw [vsc_fst_shape]

theorem vsc_fst_is_active (probe : List Char → ProbeOutcome) (c : Channel) :
    (validateSingleChannel probe c).1.is_active = c.is_active := by
  rw [vsc_fst_shape]

theorem finalChannel_id (retry now : Nat) (probe : List Char → ProbeOutcome)
    (c : Channel) : (finalChannel retry now probe c).id = c.id := by
  unfold finalChannel
  rw [updateStatus_id, vsc_fst_id]

/-- Exactly one image of a member has its key, in a mapped list with
distinct keys. -/
theorem count_map_key {α β : Type} (l : List α) (key : α → Nat)
    (g : α → β) (keyb : β → Nat) (hg : ∀ a, keyb (g a) = key a)
    (hnd : (l.map key).Nodup) {c : α} (hc : c ∈ l) :
    ((l.map g).filter (fun b => keyb b = key c)).length = 1 := by
  induction l with
  | nil => simp at hc
  | cons d rest ih =>
    simp only [List.map_cons, List.nodup_cons] at hnd
    rcases List.mem_cons.mp hc with rfl | hc'
    · rw [List.map_cons, List.filter_cons]
      have hd : (decide (keyb (g c) = key c)) = true := by simp [hg]
      rw [hd]
      have hrest : (rest.map g).filter (fun b => keyb b = key c) = [] := by
        rw [List.filter_eq_nil_iff]
        intro b hb
        rw [List.mem_map] at hb
        obtain ⟨a, ha, rfl⟩ := hb
        simp only [hg, decide_eq_true_eq]
        intro he
        exact hnd.1 (he ▸ List.mem_map_of_mem key ha)
      simp [hrest]
    · rw [List.map_cons, List.filter_cons]
      have hd : (decide (keyb (g d) = key c)) = false := by
        simp only [hg, decide_eq_false_iff_not]
        intro he
        exact hnd.1 (he ▸ List.mem_map_of_mem key hc')
      rw [hd]
      exact ih hnd.2 hc'

/-- C1.  Failure escalation and reset, over a whole `validate_playlist`
run: every in-scope channel ends in the state given by the result loop —
on a successful (post-fallback) probe `working = true` and
`failure_count = 0`; on a failed probe `working = false` and
`failure_count` incremented by one, and if the incremented count reaches
the configured retry-attempts threshold the channel's `active` flag is
forced false.  Moreover the orchestrator never sets `active` back to
true: every channel active after the run was already active before it. -/
theorem c1_failure_escalation (retry now : Nat)
    (probe : List Char → ProbeOutcome) (db : DB) (pid : Nat)
    (hp : db.playlists.any (fun p => p.id = pid) = true)
    (hnd : (db.channels.map (fun c => c.id)).Nodup) :
    (∀ c ∈ db.channels, inScope pid c = true →
      ∃ c', (runDB retry now probe db pid).channels.find?
          (fun x => x.id = c.id) = some c' ∧
        ((validateSingleChannel probe c).2.is_working = true →
          c'.is_working = true ∧ c'.failure_count = 0) ∧
        ((validateSingleChannel probe c).2.is_working = false →
          c'.is_working = false ∧
          c'.failure_count = c.failure_count + 1 ∧
          (retry ≤ c.failure_count + 1 → c'.is_active = false))) ∧
    (∀ c' ∈ (runDB retry now probe db pid).channels, c'.is_active = true →
      ∃ c, c ∈ db.channels ∧ c.id = c'.id ∧ c.is_active = true) := by
  by_cases hz : db.channels.filter (inScope pid) = []
  · rw [runDB_empty retry now probe db pid hp hz]
    constructor
    · intro c hc hs
      have : c ∈ db.channels.filter (inScope pid) :=
        List.mem_filter.mpr ⟨hc, hs⟩
      rw [hz] at this
      simp at this
    · intro c' hc' ha
      exact ⟨c', hc', rfl, ha⟩
  · have hne : (db.channels.filter (inScope pid)).isEmpty = false := by
      cases he : (db.channels.filter (inScope pid)).isEmpty
      · rfl
      · exact absurd (List.isEmpty_iff.mp he) hz
    rw [runDB_channels retry now probe db pid hp hnd hne]
    have hgid : ∀ a : Channel,
        (if inScope pid a then finalChannel retry now probe a else a).id
          = a.id := by
      intro a
      by_cases hs : inScope pid a
      · rw [if_pos hs, finalChannel_id]
      · rw [if_neg hs]
    constructor
    · intro c hc hs
      refine ⟨finalChannel retry now probe c, ?_, ?_, ?_⟩
      · have h0 := find?_map_key db.channels (fun c => c.id)
          (fun a => if inScope pid a then finalChannel retry now probe a else a)
          (fun c => c.id) hgid hnd hc
        simp only [hs, if_true] at h0
        exact h0
      · intro hw
        unfold finalChannel
        rw [updateStatus_is_working, hw]
        exact ⟨rfl, updateStatus_success _ _ _ _ hw⟩
      · intro hw
        unfold finalChannel
        refine ⟨by rw [updateStatus_is_working, hw], ?_, ?_⟩
        · rw [updateStatus_failure _ _ _ _ hw, vsc_fst_failure_count]
        · intro hth
          exact updateStatus_deactivate _ _ _ _ hw
            (by rw [vsc_fst_failure_count]; exact hth)
    · intro c' hc' ha
      rw [List.mem_map] at hc'
      obtain ⟨c, hc, rfl⟩ := hc'
      refine ⟨c, hc, (hgid c).symm, ?_⟩
      by_cases hs : inScope pid c
      · rw [if_pos hs] at ha
        unfold finalChannel at ha
        have := updateStatus_active_mono _ _ _ _ ha
        rwa [vsc_fst_is_active] at this
      · rwa [if_neg hs] at ha

/-- Scenario D database: retry_attempts = 2, one active channel with
`failure_count = 1`, and a probe that fails every URL. -/
def c1w_probe : List Char → ProbeOutcome :=
  fun _ => { is_working := false, response_time := 3,
             error_message := some (cs "HTTP 500"), status_code := some 500 }

def c1w_db : DB :=
  { playlists := [⟨1, true, none⟩],
    channels := [⟨7, 1, cs "CNN", cs "http://p", [], true, true, 5, 1, 2, none⟩],
    logs := [], results := [] }

/-- Witness for `c1_failure_escalation`, realizing concrete scenario D:
with `retry_attempts = 2`, the channel entering with `failure_count = 1`
that fails again ends with `failure_count = 2`, `working = false` and
`active = false`. -/
theorem c1_failure_escalation_witness :
    ((c1w_db.playlists.any (fun p => p.id = 1) = true) ∧
      (c1w_db.channels.map (fun c => c.id)).Nodup) ∧
    ((∀ c ∈ c1w_db.channels, inScope 1 c = true →
      ∃ c', (runDB 2 100 c1w_probe c1w_db 1).channels.find?
          (fun x => x.id = c.id) = some c' ∧
        ((validateSingleChannel c1w_probe c).2.is_working = true →
          c'.is_working = true ∧ c'.failure_count = 0) ∧
        ((validateSingleChannel c1w_probe c).2.is_working = false →
          c'.is_working = false ∧
          c'.failure_count = c.failure_count + 1 ∧
          (2 ≤ c.failure_count + 1 → c'.is_active = false))) ∧
     (∀ c' ∈ (runDB 2 100 c1w_probe c1w_db 1).channels, c'.is_active = true →
      ∃ c, c ∈ c1w_db.channels ∧ c.id = c'.id ∧ c.is_active = true)) ∧
    (runDB 2 100 c1w_probe c1w_db 1).channels.find? (fun x => x.id = 7) =
      some ⟨7, 1, cs "CNN", cs "http://p", [], false, false, 6, 2, 3,
        some 100⟩ :=
  ⟨⟨by decide, by decide⟩,
    c1_failure_escalation 2 100 c1w_probe c1w_db 1 (by decide) (by decide),
    by decide⟩

/-- C3.  Alternate-URL fallback: the fallback loop probes the alternates
in listed order (it returns exactly the first alternate whose probe
succeeds); when the primary probe fails and some alternate succeeds, the
first such alternate becomes the channel's stream address and its probe
outcome (working flag, response time, error, status) is the single
outcome recorded for the channel; when no alternate succeeds, the
primary's original failing outcome is recorded and the channel is
unchanged; and in every completed run, exactly one outcome row is
appended per scoped channel. -/
theorem c3_alternate_fallback (probe : List Char → ProbeOutcome)
    (hpe : ∀ u, (probe u).is_working = true →
      (probe u).error_message = none) :
    (∀ us : List (List Char), firstWorkingAlt probe us =
      us.find? (fun u => (probe u).is_working)) ∧
    (∀ c : Channel, (probe c.stream_url).is_working = false →
      c.alternative_urls ≠ [] →
      (∀ alt, firstWorkingAlt probe c.alternative_urls = some alt →
        (validateSingleChannel probe c).1 = { c with stream_url := alt } ∧
        (validateSingleChannel probe c).2 =
          { channel_id := c.id, channel_name := c.name, stream_url := alt,
            is_working := true,
            response_time := (probe alt).response_time,
            error_message := (probe alt).error_message,
            status_code := (probe alt).status_code }) ∧
      (firstWorkingAlt probe c.alternative_urls = none →
        (validateSingleChannel probe c).1 = c ∧
        (validateSingleChannel probe c).2 =
          { channel_id := c.id, channel_name := c.name,
            stream_url := c.stream_url,
            is_working := (probe c.stream_url).is_working,
            response_time := (probe c.stream_url).response_time,
            error_message := (probe c.stream_url).error_message,
            status_code := (probe c.stream_url).status_code })) ∧
    (∀ retry now db pid,
      (db.channels.map (fun c => c.id)).Nodup →
      db.playlists.any (fun p => p.id = pid) = true →
      ∀ c ∈ db.channels, inScope pid c = true →
        (((runDB retry now probe db pid).results.drop
            db.results.length).filter
          (fun row => row.channel_id = c.id)).length = 1) := by
  have hfwa_works : ∀ us alt, firstWorkingAlt probe us = some alt →
      (probe alt).is_working = true := by
    intro us
    induction us with
    | nil => intro alt h; simp [firstWorkingAlt] at h
    | cons u rest ih =>
      intro alt h
      unfold firstWorkingAlt at h
      by_cases hu : (probe u).is_working
      · rw [if_pos hu] at h
        cases h
        exact hu
      · rw [if_neg hu] at h
        exact ih alt h
  refine ⟨?_, ?_, ?_⟩
  · intro us
    induction us with
    | nil => rfl
    | cons u rest ih =>
      unfold firstWorkingAlt
      rw [List.find?_cons]
      by_cases hu : (probe u).is_working
      · simp [hu]
      · rw [Bool.not_eq_true] at hu
        simp [List.find?_cons, hu, ih]
  · intro c hw halts
    have hcond : (!(probe c.stream_url).is_working &&
        !c.alternative_urls.isEmpty) = true := by
      simp [hw, halts]
    constructor
    · intro alt halt
      have hweq := hpe alt (hfwa_works c.alternative_urls alt halt)
      unfold validateSingleChannel
      dsimp only
      rw [if_pos hcond, halt]
      exact ⟨rfl, by rw [← hweq]⟩
    · intro halt
      unfold validateSingleChannel
      dsimp only
      rw [if_pos hcond, halt]
      exact ⟨rfl, rfl⟩
  · intro retry now db pid hnd hp c hc hs
    have hmemf : c ∈ db.channels.filter (inScope pid) :=
      List.mem_filter.mpr ⟨hc, hs⟩
    have hne : (db.channels.filter (inScope pid)).isEmpty = false := by
      cases he : (db.channels.filter (inScope pid)).isEmpty
      · rfl
      · rw [List.isEmpty_iff.mp he] at hmemf
        simp at hmemf
    rw [runDB_results retry now probe db pid hp hne, List.drop_left,
      List.map_map]
    have hscope_nd : ((db.channels.filter (inScope pid)).map
        (fun c => c.id)).Nodup :=
      ((List.filter_sublist db.channels).map (fun c => c.id)).nodup hnd
    exact count_map_key (db.channels.filter (inScope pid)) (fun c => c.id)
      ((fun r : ResultRec =>
          ({ validation_log_id := db.logs.length,
             channel_id := r.channel_id, is_working := r.is_working,
             response_time := r.response_time, status_code := r.status_code,
             error_message := r.error_message } : ResultRow)) ∘
        (fun c => (validateSingleChannel probe c).2))
      (fun row => row.channel_id) (fun a => vsc_snd_id probe a)
      hscope_nd hmemf

/-- A probe for the fallback witness: the primary and the second
alternate fail, the first alternate works. -/
def c3w_probe : List Char → ProbeOutcome := fun u =>
  if u = cs "http://alt1" then
    { is_working := true, response_time := 7, error_message := none,
      status_code := some 200 }
  else
    { is_working := false, response_time := 9,
      error_message := some (cs "HTTP 500"), status_code := some 500 }

/-- Witness for `c3_alternate_fallback` at the probe above. -/
theorem c3_alternate_fallback_witness :
    (∀ u, (c3w_probe u).is_working = true →
      (c3w_probe u).error_message = none) ∧
    (∀ us : List (List Char), firstWorkingAlt c3w_probe us =
      us.find? (fun u => (c3w_probe u).is_working)) := by
  have hpe : ∀ u, (c3w_probe u).is_working = true →
      (c3w_probe u).error_message = none := by
    intro u
    unfold c3w_probe
    by_cases h : u = cs "http://alt1"
    · rw [if_pos h]
      intro _
      rfl
    · rw [if_neg h]
      intro hcontra
      simp at hcontra
  exact ⟨hpe, (c3_alternate_fallback c3w_probe hpe).1⟩

/-! ## Round-trip support: list and trim lemmas -/

theorem takeWhile_append_all (p : Char → Bool) (w l : List Char)
    (h : ∀ c ∈ w, p c = true) :
    (w ++ l).takeWhile p = w ++ l.takeWhile p := by
  induction w with
  | nil => simp
  | cons a w' ih =>
    rw [List.cons_append, List.takeWhile_cons,
      h a (List.mem_cons_self a w'), List.cons_append,
      ih (fun c hc => h c (List.mem_cons_of_mem a hc))]
    rw [if_pos rfl]

theorem dropWhile_append_all (p : Char → Bool) (w l : List Char)
    (h : ∀ c ∈ w, p c = true) :
    (w ++ l).dropWhile p = l.dropWhile p := by
  induction w with
  | nil => simp
  | cons a w' ih =>
    rw [List.cons_append, List.dropWhile_cons,
      h a (List.mem_cons_self a w'),
      ih (fun c hc => h c (List.mem_cons_of_mem a hc))]
    simp

theorem takeWhile_eq_nil_of_head (p : Char → Bool) (l : List Char)
    (h : ∀ c, l.head? = some c → p c = false) : l.takeWhile p = [] := by
  cases l with
  | nil => rfl
  | cons a t =>
    rw [List.takeWhile_cons, h a rfl]
    simp

theorem dropWhile_eq_self_of_head (p : Char → Bool) (l : List Char)
    (h : ∀ c, l.head? = some c → p c = false) : l.dropWhile p = l := by
  cases l with
  | nil => rfl
  | cons a t =>
    rw [List.dropWhile_cons, h a rfl]
    simp

theorem head?_dropWhile_false (p : Char → Bool) (l : List Char) {c : Char}
    (h : (l.dropWhile p).head? = some c) : p c = false := by
  induction l with
  | nil => simp [List.dropWhile] at h
  | cons a t ih =>
    rw [List.dropWhile_cons] at h
    by_cases hp : p a
    · rw [if_pos (by simp [hp])] at h
      exact ih h
    · rw [if_neg (by simp [hp])] at h
      simp only [List.head?_cons, Option.some.injEq] at h
      rw [← h]
      simp [hp]

theorem mem_of_mem_dropWhile (p : Char → Bool) (l : List Char) {c : Char}
    (h : c ∈ l.dropWhile p) : c ∈ l := by
  induction l with
  | nil => simp [List.dropWhile] at h
  | cons a t ih =>
    rw [List.dropWhile_cons] at h
    by_cases hp : p a
    · rw [if_pos (by simp [hp])] at h
      exact List.mem_cons_of_mem a (ih h)
    · rw [if_neg (by simp [hp])] at h
      exact h

theorem getLast?_append_cons (s : List Char) (c : Char) (t : List Char) :
    (s ++ c :: t).getLast? = (c :: t).getLast? := by
  induction s with
  | nil => rfl
  | cons a s' ih =>
    rw [List.cons_append]
    rcases hsct : s' ++ c :: t with _ | ⟨d, t'⟩
    · exact absurd hsct (by simp)
    · rw [List.getLast?_cons_cons, ← hsct, ih]

theorem trim_eq_self_of (l : List Char)
    (h1 : l.dropWhile isSpaceChar = l)
    (h2 : ∀ c, l.getLast? = some c → isSpaceChar c = false) :
    trim l = l := by
  unfold trim
  rw [h1]
  have : l.reverse.dropWhile isSpaceChar = l.reverse := by
    apply dropWhile_eq_self_of_head
    intro c hc
    rw [List.head?_reverse] at hc
    exact h2 c hc
  rw [this, List.reverse_reverse]

theorem trim_fix_getLast {u : List Char} (h : trim u = u) :
    ∀ c, u.getLast? = some c → isSpaceChar c = false := by
  intro c hc
  rw [← List.head?_reverse] at hc
  have hu : u.reverse =
      ((u.dropWhile isSpaceChar).reverse.dropWhile isSpaceChar) := by
    conv_lhs => rw [← h]
    unfold trim
    rw [List.reverse_reverse]
  rw [hu] at hc
  exact head?_dropWhile_false _ _ hc

theorem splitOnChar_no_sep (sep : Char) (l : List Char) (h : sep ∉ l) :
    splitOnChar sep l = [l] := by
  induction l with
  | nil => rfl
  | cons a t ih =>
    unfold splitOnChar
    rw [if_neg (fun he => h (by rw [← he]; exact List.mem_cons_self a t))]
    rw [ih (fun hm => h (List.mem_cons_of_mem a hm))]

theorem splitOnChar_append (sep : Char) (l t : List Char) (h : sep ∉ l) :
    splitOnChar sep (l ++ sep :: t) = l :: splitOnChar sep t := by
  induction l with
  | nil =>
    rw [List.nil_append]
    conv_lhs => unfold splitOnChar
    rw [if_pos rfl]
  | cons a l' ih =>
    rw [List.cons_append]
    conv_lhs => unfold splitOnChar
    rw [if_neg (fun he => h (by rw [← he]; exact List.mem_cons_self a l'))]
    rw [ih (fun hm => h (List.mem_cons_of_mem a hm))]

theorem splitOnChar_joinLines :
    ∀ ls : List (List Char), ls ≠ [] → (∀ l ∈ ls, '\n' ∉ l) →
      splitOnChar '\n' (joinLines ls) = ls := by
  intro ls
  induction ls with
  | nil => intro h; exact absurd rfl h
  | cons l rest ih =>
    intro _ hall
    cases rest with
    | nil =>
      show splitOnChar '\n' l = [l]
      exact splitOnChar_no_sep '\n' l (hall l (List.mem_cons_self l []))
    | cons l2 rest2 =>
      show splitOnChar '\n' (l ++ '\n' :: joinLines (l2 :: rest2)) = _
      rw [splitOnChar_append '\n' l _ (hall l (List.mem_cons_self l _))]
      rw [ih (by simp) (fun x hx => hall x (List.mem_cons_of_mem l hx))]

theorem joinLines_getLast? :
    ∀ ls : List (List Char), ls ≠ [] → (∀ l ∈ ls, l ≠ []) →
      (joinLines ls).getLast? = (ls.getLastD []).getLast? := by
  intro ls
  induction ls with
  | nil => intro h; exact absurd rfl h
  | cons l rest ih =>
    intro _ hall
    cases rest with
    | nil => rfl
    | cons l2 rest2 =>
      show (l ++ '\n' :: joinLines (l2 :: rest2)).getLast? = _
      have hj : joinLines (l2 :: rest2) ≠ [] := by
        cases rest2 with
        | nil =>
          exact hall l2 (List.mem_cons_of_mem l (List.mem_cons_self l2 []))
        | cons l3 rest3 =>
          show l2 ++ '\n' :: joinLines (l3 :: rest3) ≠ []
          cases hl2 : l2 with
          | nil =>
            exact absurd hl2
              (hall l2 (List.mem_cons_of_mem l (List.mem_cons_self l2 _)))
          | cons a t => simp
      obtain ⟨c, t, hct⟩ : ∃ c t, joinLines (l2 :: rest2) = c :: t := by
        cases hjj : joinLines (l2 :: rest2) with
        | nil => exact absurd hjj hj
        | cons c t => exact ⟨c, t, rfl⟩
      rw [getLast?_append_cons, hct, List.getLast?_cons_cons, ← hct,
        ih (by simp) (fun x hx => hall x (List.mem_cons_of_mem l hx))]
      rfl

theorem commaName_skip (c : Char) (l : List Char) (h : c ≠ ',') :
    commaName (c :: l) = commaName l := by
  show (if c = ',' then (if l.isEmpty then none else some l)
    else commaName l) = commaName l
  rw [if_neg h]

theorem commaName_append (s l : List Char) (h : ',' ∉ s) :
    commaName (s ++ l) = commaName l := by
  induction s with
  | nil => rfl
  | cons a s' ih =>
    rw [List.cons_append,
      commaName_skip a _ (fun he => h (he ▸ List.mem_cons_self a s')),
      ih (fun hm => h (List.mem_cons_of_mem a hm))]

/-! ## Round-trip support: scanner decomposition -/

theorem matchAttrAt_none_of_nilrun (l : List Char)
    (h : l.takeWhile isKeyChar = []) : matchAttrAt l = none := by
  unfold matchAttrAt
  rw [h]
  rfl

theorem findAttrs_skip (c : Char) (l : List Char) (hc : isKeyChar c = false) :
    findAttrs (c :: l) = findAttrs l := by
  rw [findAttrs_cons,
    matchAttrAt_none_of_nilrun (c :: l)
      (by rw [List.takeWhile_cons, hc]; simp)]

theorem matchAttrAt_none_wordrun (a : Char) (w' l : List Char)
    (hw : ∀ c ∈ a :: w', isKeyChar c = true)
    (hl1 : ∀ c, l.head? = some c → isKeyChar c = false)
    (hl2 : l.head? ≠ some '=') :
    matchAttrAt (a :: (w' ++ l)) = none := by
  have htw : (a :: (w' ++ l)).takeWhile isKeyChar = a :: w' := by
    rw [List.takeWhile_cons, hw a (List.mem_cons_self a w')]
    rw [takeWhile_append_all isKeyChar w' l
      (fun c hc => hw c (List.mem_cons_of_mem a hc))]
    rw [takeWhile_eq_nil_of_head isKeyChar l hl1]
    simp
  have hdw : (a :: (w' ++ l)).dropWhile isKeyChar = l := by
    rw [List.dropWhile_cons]
    rw [if_pos (by rw [hw a (List.mem_cons_self a w')])]
    rw [dropWhile_append_all isKeyChar w' l
      (fun c hc => hw c (List.mem_cons_of_mem a hc))]
    exact dropWhile_eq_self_of_head isKeyChar l hl1
  unfold matchAttrAt
  rw [htw, hdw]
  by_cases hk : keyOk (a :: w')
  · rw [if_neg (by rw [hk]; simp)]
    cases l with
    | nil => rfl
    | cons b t =>
      have hb : b ≠ '=' := by
        intro he
        exact hl2 (by rw [he]; rfl)
      split
      · next rest2 heq =>
        injection heq with h1 h2
        exact absurd h1 hb
      · rfl
  · have hkf : keyOk (a :: w') = false := Bool.eq_false_iff.mpr hk
    rw [if_pos (by rw [hkf]; rfl)]

theorem findAttrs_wordrun (w l : List Char)
    (hw : ∀ c ∈ w, isKeyChar c = true)
    (hl1 : ∀ c, l.head? = some c → isKeyChar c = false)
    (hl2 : l.head? ≠ some '=') :
    findAttrs (w ++ l) = findAttrs l := by
  induction w with
  | nil => simp
  | cons a w' ih =>
    rw [List.cons_append, findAttrs_cons,
      matchAttrAt_none_wordrun a w' l hw hl1 hl2]
    exact ih (fun c hc => hw c (List.mem_cons_of_mem a hc))

theorem splitAtQuote_clean (v l : List Char)
    (hv : ∀ c ∈ v, isQuote c = false ∧ c ≠ '\n') :
    splitAtQuote (v ++ '"' :: l) = some (v, l) := by
  induction v with
  | nil =>
    show splitAtQuote ('"' :: l) = some ([], l)
    unfold splitAtQuote
    rw [if_pos (by decide)]
  | cons a v' ih =>
    rw [List.cons_append]
    show (if isQuote a then some ([], v' ++ '"' :: l)
      else if a = '\n' then none
      else match splitAtQuote (v' ++ '"' :: l) with
        | some (v, r) => some (a :: v, r)
        | none => none) = some (a :: v', l)
    rw [if_neg (by rw [(hv a (List.mem_cons_self a v')).1]; simp),
      if_neg (hv a (List.mem_cons_self a v')).2,
      ih (fun c hc => hv c (List.mem_cons_of_mem a hc))]

theorem matchAttrAt_token (lab v l : List Char)
    (hlab : ∀ c ∈ lab, isKeyChar c = true) (hk : keyOk lab = true)
    (hv : ∀ c ∈ v, isQuote c = false ∧ c ≠ '\n') :
    matchAttrAt (lab ++ ('=' :: '"' :: (v ++ '"' :: l)))
      = some (lab, v, l) := by
  have htw : (lab ++ ('=' :: '"' :: (v ++ '"' :: l))).takeWhile isKeyChar
      = lab := by
    rw [takeWhile_append_all isKeyChar lab ('=' :: '"' :: (v ++ '"' :: l))
        hlab, List.takeWhile_cons]
    rw [show isKeyChar '=' = false from by decide]
    simp
  have hdw : (lab ++ ('=' :: '"' :: (v ++ '"' :: l))).dropWhile isKeyChar
      = '=' :: '"' :: (v ++ '"' :: l) := by
    rw [dropWhile_append_all isKeyChar lab ('=' :: '"' :: (v ++ '"' :: l))
        hlab, List.dropWhile_cons]
    rw [show isKeyChar '=' = false from by decide]
    simp
  unfold matchAttrAt
  rw [htw, hdw, if_neg (by rw [hk]; simp)]
  show (if isQuote '"' = true then
      (match splitAtQuote (v ++ '"' :: l) with
        | some (w, r4) => some (lab, w, r4)
        | none => matchUnquoted lab ('"' :: (v ++ '"' :: l)))
    else matchUnquoted lab ('"' :: (v ++ '"' :: l))) = some (lab, v, l)
  rw [if_pos (show isQuote '"' = true by decide),
    splitAtQuote_clean v l hv]

theorem findAttrs_token (lab v l : List Char)
    (hlab : ∀ c ∈ lab, isKeyChar c = true) (hk : keyOk lab = true)
    (hv : ∀ c ∈ v, isQuote c = false ∧ c ≠ '\n') :
    findAttrs (lab ++ ('=' :: '"' :: (v ++ '"' :: l)))
      = (lab, v) :: findAttrs l := by
  cases lab with
  | nil => simp [keyOk, headIsWord] at hk
  | cons a lab' =>
    have hm := matchAttrAt_token (a :: lab') v l hlab hk hv
    rw [List.cons_append] at hm ⊢
    rw [findAttrs_cons, hm]

theorem matchAttrAt_none_no_eq (l : List Char) (h : '=' ∉ l) :
    matchAttrAt l = none := by
  unfold matchAttrAt
  by_cases hk : keyOk (l.takeWhile isKeyChar)
  · rw [if_neg (by rw [hk]; simp)]
    split
    · next rest2 heq =>
      exact absurd (mem_of_mem_dropWhile isKeyChar l
        (heq ▸ List.mem_cons_self '=' rest2)) h
    · rfl
  · have hkf : keyOk (l.takeWhile isKeyChar) = false := Bool.eq_false_iff.mpr hk
    rw [if_pos (by rw [hkf]; rfl)]

theorem findAttrs_no_eq (l : List Char) (h : '=' ∉ l) : findAttrs l = [] := by
  induction l with
  | nil => rfl
  | cons c rest ih =>
    rw [findAttrs_cons, matchAttrAt_none_no_eq (c :: rest) h]
    exact ih (fun hm => h (List.mem_cons_of_mem c hm))

theorem findAttrs_tokens (ps : List (List Char × List Char))
    (tail : List Char)
    (hps : ∀ p ∈ ps, (∀ c ∈ p.1, isKeyChar c = true) ∧ keyOk p.1 = true ∧
      (∀ c ∈ p.2, isQuote c = false ∧ c ≠ '\n'))
    (htail : findAttrs tail = []) :
    findAttrs (tokensText ps tail) = ps := by
  induction ps with
  | nil => exact htail
  | cons p ps' ih =>
    have hstep : tokensText (p :: ps') tail =
        ' ' :: (p.1 ++ ('=' :: '"' :: (p.2 ++ '"' :: tokensText ps' tail))) := by
      show (' ' :: attrToken p.1 p.2) ++ tokensText ps' tail = _
      rw [List.cons_append]
      unfold attrToken
      rw [List.append_assoc, List.append_assoc]
      rfl
    rw [hstep, findAttrs_skip ' ' _ (by decide),
      findAttrs_token p.1 p.2 _
        (hps p (List.mem_cons_self p ps')).1
        (hps p (List.mem_cons_self p ps')).2.1
        (hps p (List.mem_cons_self p ps')).2.2,
      ih (fun q hq => hps q (List.mem_cons_of_mem p hq))]

/-! ## Round-trip support: the attribute assignment loop on generated
tokens -/

theorem setIfKnown_tvg_id (info : Rec) (v : List Char) :
    setIfKnown info (normalizeKey (cs "tvg-id")) v =
      { info with tvg_id := some v } := by
  rw [show normalizeKey (cs "tvg-id") = cs "tvg_id" from rfl]
  unfold setIfKnown
  rw [if_neg (by decide), if_neg (by decide), if_neg (by decide), if_pos rfl]

theorem setIfKnown_tvg_name (info : Rec) (v : List Char) :
    setIfKnown info (normalizeKey (cs "tvg-name")) v =
      { info with tvg_name := some v } := by
  rw [show normalizeKey (cs "tvg-name") = cs "tvg_name" from rfl]
  unfold setIfKnown
  rw [if_neg (by decide), if_neg (by decide), if_neg (by decide),
    if_neg (by decide), if_pos rfl]

theorem setIfKnown_tvg_logo (info : Rec) (v : List Char) :
    setIfKnown info (normalizeKey (cs "tvg-logo")) v =
      { info with tvg_logo := some v } := by
  rw [show normalizeKey (cs "tvg-logo") = cs "tvg_logo" from rfl]
  unfold setIfKnown
  rw [if_neg (by decide), if_neg (by decide), if_neg (by decide),
    if_neg (by decide), if_neg (by decide), if_pos rfl]

theorem setIfKnown_tvg_epg (info : Rec) (v : List Char) :
    setIfKnown info (normalizeKey (cs "tvg-epg")) v =
      { info with tvg_epg := some v } := by
  rw [show normalizeKey (cs "tvg-epg") = cs "tvg_epg" from rfl]
  unfold setIfKnown
  rw [if_neg (by decide), if_neg (by decide), if_neg (by decide),
    if_neg (by decide), if_neg (by decide), if_neg (by decide), if_pos rfl]

theorem setIfKnown_group_title (info : Rec) (v : List Char) :
    setIfKnown info (normalizeKey (cs "group-title")) v =
      { info with group_title := some v } := by
  rw [show normalizeKey (cs "group-title") = cs "group_title" from rfl]
  unfold setIfKnown
  rw [if_neg (by decide), if_pos rfl]

theorem applyAttrs_opt (info : Rec) (lab v : List Char)
    (ps : List (List Char × List Char)) :
    applyAttrs info (optAttr lab v ++ ps) =
      applyAttrs
        (if v.isEmpty then info else setIfKnown info (normalizeKey lab) v)
        ps := by
  by_cases hv : v.isEmpty
  · rw [if_pos hv]
    unfold optAttr
    rw [if_pos hv, List.nil_append]
  · rw [if_neg hv]
    unfold optAttr
    rw [if_neg hv, List.cons_append, List.nil_append]
    unfold applyAttrs
    rw [List.foldl_cons]
    rw [show (if (lab, v).2.isEmpty then info
      else setIfKnown info (normalizeKey (lab, v).1) (lab, v).2) =
        setIfKnown info (normalizeKey lab) v by
      rw [if_neg hv]]

theorem applyAttrs_nil (info : Rec) : applyAttrs info [] = info := rfl

/-- The assignment loop over the generated tokens produces exactly the
reparsed attribute fields: each of the five recognized attributes holds
(the `some` of) its generated value, absent-or-empty fields stay at the
initialized `''`. -/
theorem applyAttrs_emitted (r : Rec) :
    applyAttrs extinfBase (emittedAttrs r) =
      { name := some [], group_title := some (r.group_title.getD []),
        logo := some [],
        tvg_id := some (r.tvg_id.getD []),
        tvg_name := some (r.tvg_name.getD []),
        tvg_logo := some (r.tvg_logo.getD []),
        tvg_epg := some (r.tvg_epg.getD []),
        stream_url := none } := by
  unfold emittedAttrs
  simp only [List.append_assoc]
  rw [applyAttrs_opt, applyAttrs_opt, applyAttrs_opt, applyAttrs_opt,
    ← List.append_nil (optAttr (cs "group-title") (r.group_title.getD [])),
    applyAttrs_opt, applyAttrs_nil]
  by_cases h1 : (r.tvg_id.getD []).isEmpty <;>
    by_cases h2 : (r.tvg_name.getD []).isEmpty <;>
      by_cases h3 : (r.tvg_logo.getD []).isEmpty <;>
        by_cases h4 : (r.tvg_epg.getD []).isEmpty <;>
          by_cases h5 : (r.group_title.getD []).isEmpty <;>
            simp_all [setIfKnown_tvg_id, setIfKnown_tvg_name,
              setIfKnown_tvg_logo, setIfKnown_tvg_epg,
              setIfKnown_group_title, List.isEmpty_iff, extinfBase]

/-! ## Round-trip support: wellformedness -/

/-- An attribute value that survives the generate/parse cycle intact: no
comma (the name regex captures from the line's first comma), no quote of
either kind (the scanner's lazy value capture stops at the first quote),
no newline. -/
def goodVal (v : List Char) : Bool :=
  v.all (fun c => !(c = ',' || c = '"' || c = '\'' || c = '\n'))

/-- A display name that survives: no `=` (so the scanner finds no
attribute inside the name region), no newline, and already stripped. -/
def goodName (n : List Char) : Bool :=
  n.all (fun c => !(c = '=' || c = '\n')) && decide (trim n = n)

/-- A stream address that survives: non-empty, stripped, not a comment
line, no newline. -/
def goodUrl (u : List Char) : Bool :=
  !u.isEmpty && decide (trim u = u) && !(u.headD ' ' = '#') &&
    u.all (fun c => !(c = '\n'))

/-- A record whose generated text reparses to the same semantic tuple. -/
def WFrec (r : Rec) : Bool :=
  r.name.isSome && r.stream_url.isSome &&
    goodName (r.name.getD []) && goodUrl (r.stream_url.getD []) &&
    goodVal (r.tvg_id.getD []) && goodVal (r.tvg_name.getD []) &&
    goodVal (r.tvg_logo.getD []) && goodVal (r.tvg_epg.getD []) &&
    goodVal (r.group_title.getD [])

theorem goodVal_props {v : List Char} (h : goodVal v = true) :
    ∀ c ∈ v, c ≠ ',' ∧ isQuote c = false ∧ c ≠ '\n' := by
  intro c hc
  unfold goodVal at h
  have h2 := List.all_eq_true.mp h c hc
  simp only [Bool.not_eq_true', Bool.or_eq_false_iff,
    decide_eq_false_iff_not] at h2
  exact ⟨h2.1.1.1, by unfold isQuote; simp [h2.1.1.2, h2.1.2], h2.2⟩

theorem goodName_props {n : List Char} (h : goodName n = true) :
    ('=' ∉ n) ∧ ('\n' ∉ n) ∧ trim n = n := by
  unfold goodName at h
  rw [Bool.and_eq_true] at h
  refine ⟨?_, ?_, of_decide_eq_true h.2⟩
  · intro hm
    have h2 := List.all_eq_true.mp h.1 _ hm
    simp at h2
  · intro hm
    have h2 := List.all_eq_true.mp h.1 _ hm
    simp at h2

theorem goodUrl_props {u : List Char} (h : goodUrl u = true) :
    u.isEmpty = false ∧ trim u = u ∧ (u.headD ' ' ≠ '#') ∧ ('\n' ∉ u) := by
  unfold goodUrl at h
  rw [Bool.and_eq_true, Bool.and_eq_true, Bool.and_eq_true] at h
  refine ⟨by simpa using h.1.1.1, of_decide_eq_true h.1.1.2,
    by simpa using h.1.2, ?_⟩
  intro hm
  have h2 := List.all_eq_true.mp h.2 _ hm
  simp at h2

theorem WFrec_props {r : Rec} (h : WFrec r = true) :
    r.name.isSome = true ∧ r.stream_url.isSome = true ∧
      goodName (r.name.getD []) = true ∧
      goodUrl (r.stream_url.getD []) = true ∧
      goodVal (r.tvg_id.getD []) = true ∧
      goodVal (r.tvg_name.getD []) = true ∧
      goodVal (r.tvg_logo.getD []) = true ∧
      goodVal (r.tvg_epg.getD []) = true ∧
      goodVal (r.group_title.getD []) = true := by
  unfold WFrec at h
  simp only [Bool.and_eq_true] at h
  exact ⟨h.1.1.1.1.1.1.1.1, h.1.1.1.1.1.1.1.2, h.1.1.1.1.1.1.2,
    h.1.1.1.1.1.2, h.1.1.1.1.2, h.1.1.1.2, h.1.1.2, h.1.2, h.2⟩

theorem mem_optAttr {p : List Char × List Char} {lab v : List Char}
    (h : p ∈ optAttr lab v) : p = (lab, v) ∧ v.isEmpty = false := by
  unfold optAttr at h
  by_cases hv : v.isEmpty
  · rw [if_pos hv] at h
    simp at h
  · rw [if_neg hv] at h
    rcases List.mem_cons.mp h with rfl | h2
    · exact ⟨rfl, Bool.eq_false_iff.mpr hv⟩
    · simp at h2

theorem mem_emittedAttrs {r : Rec} {p : List Char × List Char}
    (h : p ∈ emittedAttrs r) :
    (p = (cs "tvg-id", r.tvg_id.getD [])) ∨
    (p = (cs "tvg-name", r.tvg_name.getD [])) ∨
    (p = (cs "tvg-logo", r.tvg_logo.getD [])) ∨
    (p = (cs "tvg-epg", r.tvg_epg.getD [])) ∨
    (p = (cs "group-title", r.group_title.getD [])) := by
  unfold emittedAttrs at h
  simp only [List.append_assoc, List.mem_append] at h
  rcases h with h | h | h | h | h
  · exact Or.inl (mem_optAttr h).1
  · exact Or.inr (Or.inl (mem_optAttr h).1)
  · exact Or.inr (Or.inr (Or.inl (mem_optAttr h).1))
  · exact Or.inr (Or.inr (Or.inr (Or.inl (mem_optAttr h).1)))
  · exact Or.inr (Or.inr (Or.inr (Or.inr (mem_optAttrs_aux h))))
where
  mem_optAttrs_aux {q : List Char × List Char} {lab v : List Char}
      (hq : q ∈ optAttr lab v) : q = (lab, v) := (mem_optAttr hq).1

/-- The scanner conditions hold for every emitted token of a wellformed
record. -/
theorem emitted_token_ok {r : Rec} (h : WFrec r = true) :
    ∀ p ∈ emittedAttrs r,
      (∀ c ∈ p.1, isKeyChar c = true) ∧ keyOk p.1 = true ∧
        (∀ c ∈ p.2, isQuote c = false ∧ c ≠ '\n') := by
  intro p hp
  obtain ⟨-, -, -, -, h5, h6, h7, h8, h9⟩ := WFrec_props h
  rcases mem_emittedAttrs hp with rfl | rfl | rfl | rfl | rfl
  · exact ⟨(by show ∀ c ∈ cs "tvg-id", isKeyChar c = true; decide),
      (by show keyOk (cs "tvg-id") = true; decide),
      fun c hc => ⟨(goodVal_props h5 c hc).2.1, (goodVal_props h5 c hc).2.2⟩⟩
  · exact ⟨(by show ∀ c ∈ cs "tvg-name", isKeyChar c = true; decide),
      (by show keyOk (cs "tvg-name") = true; decide),
      fun c hc => ⟨(goodVal_props h6 c hc).2.1, (goodVal_props h6 c hc).2.2⟩⟩
  · exact ⟨(by show ∀ c ∈ cs "tvg-logo", isKeyChar c = true; decide),
      (by show keyOk (cs "tvg-logo") = true; decide),
      fun c hc => ⟨(goodVal_props h7 c hc).2.1, (goodVal_props h7 c hc).2.2⟩⟩
  · exact ⟨(by show ∀ c ∈ cs "tvg-epg", isKeyChar c = true; decide),
      (by show keyOk (cs "tvg-epg") = true; decide),
      fun c hc => ⟨(goodVal_props h8 c hc).2.1, (goodVal_props h8 c hc).2.2⟩⟩
  · exact ⟨(by show ∀ c ∈ cs "group-title", isKeyChar c = true; decide),
      (by show keyOk (cs "group-title") = true; decide),
      fun c hc => ⟨(goodVal_props h9 c hc).2.1, (goodVal_props h9 c hc).2.2⟩⟩

theorem comma_notin_emitted {r : Rec} (h : WFrec r = true) :
    ∀ p ∈ emittedAttrs r, (',' ∉ p.1) ∧ (',' ∉ p.2) := by
  intro p hp
  obtain ⟨-, -, -, -, h5, h6, h7, h8, h9⟩ := WFrec_props h
  rcases mem_emittedAttrs hp with rfl | rfl | rfl | rfl | rfl
  · exact ⟨(by show ',' ∉ cs "tvg-id"; decide),
      fun hm => (goodVal_props h5 _ hm).1 rfl⟩
  · exact ⟨(by show ',' ∉ cs "tvg-name"; decide),
      fun hm => (goodVal_props h6 _ hm).1 rfl⟩
  · exact ⟨(by show ',' ∉ cs "tvg-logo"; decide),
      fun hm => (goodVal_props h7 _ hm).1 rfl⟩
  · exact ⟨(by show ',' ∉ cs "tvg-epg"; decide),
      fun hm => (goodVal_props h8 _ hm).1 rfl⟩
  · exact ⟨(by show ',' ∉ cs "group-title"; decide),
      fun hm => (goodVal_props h9 _ hm).1 rfl⟩

/-! ## Round-trip support: the generated line reparses to the record -/

/-- The scanner finds no match anywhere inside `#EXTINF:-1` (every
word-run there is followed by `:`, `-`, `1` or the region after the
prefix, never by `=`). -/
theorem findAttrs_extinf_lead (X : List Char)
    (hh : ∀ c, X.head? = some c → isKeyChar c = false ∧ c ≠ '=') :
    findAttrs (cs "#EXTINF:-1" ++ X) = findAttrs X := by
  have h0 : cs "#EXTINF:-1" ++ X =
      '#' :: (cs "EXTINF" ++ (':' :: (cs "-1" ++ X))) := rfl
  rw [h0, findAttrs_skip '#' _ (by decide)]
  rw [findAttrs_wordrun (cs "EXTINF") (':' :: (cs "-1" ++ X)) (by decide)
    (fun c hc => by
      simp only [List.head?_cons, Option.some.injEq] at hc
      rw [← hc]
      decide)
    (fun hcon => by
      simp only [List.head?_cons, Option.some.injEq] at hcon
      exact absurd hcon (by decide))]
  rw [findAttrs_skip ':' _ (by decide)]
  rw [findAttrs_wordrun (cs "-1") X (by decide)
    (fun c hc => (hh c hc).1)
    (fun hcon => by
      cases hx : X.head? with
      | none => rw [hx] at hcon; exact Option.noConfusion hcon
      | some c =>
        rw [hx] at hcon
        have := (hh c hx).2
        rw [Option.some.injEq] at hcon
        exact this hcon)]

theorem tokensText_head_ok (ps : List (List Char × List Char))
    (n : List Char) :
    ∀ c, (tokensText ps (',' :: n)).head? = some c →
      isKeyChar c = false ∧ c ≠ '=' := by
  intro c hc
  cases ps with
  | nil =>
    have : (tokensText [] (',' :: n)).head? = some ',' := rfl
    rw [this] at hc
    rw [Option.some.injEq] at hc
    rw [← hc]
    exact ⟨by decide, by decide⟩
  | cons p ps' =>
    have : (tokensText (p :: ps') (',' :: n)).head? = some ' ' := rfl
    rw [this] at hc
    rw [Option.some.injEq] at hc
    rw [← hc]
    exact ⟨by decide, by decide⟩

theorem commaName_tokensText (ps : List (List Char × List Char))
    (n : List Char) (hps : ∀ p ∈ ps, (',' ∉ p.1) ∧ (',' ∉ p.2)) :
    commaName (tokensText ps (',' :: n)) =
      if n.isEmpty then none else some n := by
  induction ps with
  | nil =>
    show commaName (',' :: n) = _
    unfold commaName
    rw [if_pos rfl]
  | cons p ps' ih =>
    have hstep : tokensText (p :: ps') (',' :: n) =
        (' ' :: attrToken p.1 p.2) ++ tokensText ps' (',' :: n) := rfl
    rw [hstep]
    have hs : ',' ∉ (' ' :: attrToken p.1 p.2) := by
      intro hm
      rcases List.mem_cons.mp hm with he | hm2
      · exact absurd he (by decide)
      · unfold attrToken at hm2
        rcases List.mem_append.mp hm2 with hA | hB
        · rcases List.mem_append.mp hA with hC | hD
          · exact (hps p (List.mem_cons_self p ps')).1 hC
          · rcases List.mem_cons.mp hD with he | hD2
            · exact absurd he (by decide)
            · rcases List.mem_cons.mp hD2 with he | hD3
              · exact absurd he (by decide)
              · exact (hps p (List.mem_cons_self p ps')).2 hD3
        · rcases List.mem_cons.mp hB with he | hB2
          · exact absurd he (by decide)
          · simp at hB2
    rw [commaName_append _ _ hs]
    exact ih (fun q hq => hps q (List.mem_cons_of_mem p hq))

theorem findAttrs_generateExtinf (r : Rec) (h : WFrec r = true) :
    findAttrs (generateExtinf r) = emittedAttrs r := by
  obtain ⟨-, -, hn, -, -⟩ := WFrec_props h
  unfold generateExtinf
  rw [findAttrs_extinf_lead _
    (tokensText_head_ok (emittedAttrs r) (r.name.getD (cs "Unknown")))]
  apply findAttrs_tokens _ _ (emitted_token_ok h)
  rw [findAttrs_skip ',' _ (by decide)]
  apply findAttrs_no_eq
  have hgd : r.name.getD (cs "Unknown") = r.name.getD [] := by
    obtain ⟨h1, -⟩ := WFrec_props h
    cases hrn : r.name with
    | none => rw [hrn] at h1; simp at h1
    | some n => rfl
  rw [hgd]
  exact (goodName_props hn).1

theorem commaName_generateExtinf (r : Rec) (h : WFrec r = true) :
    commaName (generateExtinf r) =
      if (r.name.getD (cs "Unknown")).isEmpty then none
      else some (r.name.getD (cs "Unknown")) := by
  unfold generateExtinf
  rw [commaName_append _ _ (by decide)]
  exact commaName_tokensText _ _ (comma_notin_emitted h)

/-- The record that reparsing the generated text yields for a wellformed
record `r` (before the stream address line is attached). -/
def reparsedBase (r : Rec) : Rec :=
  { name := some (r.name.getD []),
    group_title := some (r.group_title.getD []), logo := some [],
    tvg_id := some (r.tvg_id.getD []),
    tvg_name := some (r.tvg_name.getD []),
    tvg_logo := some (r.tvg_logo.getD []),
    tvg_epg := some (r.tvg_epg.getD []), stream_url := none }

theorem parse_generateExtinf (r : Rec) (h : WFrec r = true) :
    parse_extinf_line (generateExtinf r) = reparsedBase r := by
  obtain ⟨h1, -, hn, -, -⟩ := WFrec_props h
  obtain ⟨n, hrn⟩ : ∃ n, r.name = some n := by
    cases hrn : r.name with
    | none => rw [hrn] at h1; simp at h1
    | some n => exact ⟨n, rfl⟩
  have hgd : r.name.getD (cs "Unknown") = n := by rw [hrn]; rfl
  have hgd2 : r.name.getD [] = n := by rw [hrn]; rfl
  unfold parse_extinf_line
  rw [findAttrs_generateExtinf r h, applyAttrs_emitted r,
    commaName_generateExtinf r h, hgd]
  by_cases hne : n.isEmpty
  · rw [if_pos hne]
    show Rec.mk (some []) (some (r.group_title.getD [])) (some [])
      (some (r.tvg_id.getD [])) (some (r.tvg_name.getD []))
      (some (r.tvg_logo.getD [])) (some (r.tvg_epg.getD [])) none
      = reparsedBase r
    unfold reparsedBase
    rw [hgd2, List.isEmpty_iff.mp hne]
  · rw [if_neg hne]
    have htrim : trim n = n := by
      rw [hrn] at hn
      exact (goodName_props hn).2.2
    show Rec.mk (some (trim n)) (some (r.group_title.getD [])) (some [])
      (some (r.tvg_id.getD [])) (some (r.tvg_name.getD []))
      (some (r.tvg_logo.getD [])) (some (r.tvg_epg.getD [])) none
      = reparsedBase r
    unfold reparsedBase
    rw [hgd2, htrim]

/-! ## Round-trip support: line-level facts -/

theorem tokensText_eq_append (ps : List (List Char × List Char)) :
    ∀ tail, tokensText ps tail = tokensText ps [] ++ tail := by
  induction ps with
  | nil => intro tail; rfl
  | cons p ps' ih =>
    intro tail
    show (' ' :: attrToken p.1 p.2) ++ tokensText ps' tail =
      ((' ' :: attrToken p.1 p.2) ++ tokensText ps' []) ++ tail
    rw [ih tail, List.append_assoc]

theorem name_getD_eq {r : Rec} (h : r.name.isSome = true) :
    r.name.getD (cs "Unknown") = r.name.getD [] := by
  cases hrn : r.name with
  | none => rw [hrn] at h; simp at h
  | some n => rfl

theorem trim_generateExtinf (r : Rec) (h : WFrec r = true) :
    trim (generateExtinf r) = generateExtinf r := by
  obtain ⟨h1, -, hn, -, -⟩ := WFrec_props h
  apply trim_eq_self_of
  · rw [show generateExtinf r = '#' :: (cs "EXTINF:-1" ++
      tokensText (emittedAttrs r) (',' :: r.name.getD (cs "Unknown")))
      from rfl]
    rw [List.dropWhile_cons, show isSpaceChar '#' = false from by decide]
    simp
  · intro c hc
    have hline : generateExtinf r =
        (cs "#EXTINF:-1" ++ tokensText (emittedAttrs r) []) ++
          (',' :: r.name.getD (cs "Unknown")) := by
      unfold generateExtinf
      rw [tokensText_eq_append, List.append_assoc]
    rw [hline, getLast?_append_cons, name_getD_eq h1] at hc
    cases hname : r.name.getD [] with
    | nil =>
      rw [hname] at hc
      simp only [List.getLast?_singleton, Option.some.injEq] at hc
      rw [← hc]
      decide
    | cons a t =>
      rw [hname, List.getLast?_cons_cons] at hc
      have htrim : trim (a :: t) = a :: t := by
        rw [← hname]
        exact (goodName_props hn).2.2
      exact trim_fix_getLast htrim c hc

theorem startsWith_extinf_generate (r : Rec) :
    startsWith (cs "#EXTINF") (generateExtinf r) = true := rfl

theorem generateExtinf_ne_nil (r : Rec) : (generateExtinf r).isEmpty = false := rfl

theorem startsWith_url_false (u : List Char) (h : u.headD ' ' ≠ '#') :
    startsWith (cs "#EXTINF") u = false := by
  cases u with
  | nil => rfl
  | cons a t =>
    unfold startsWith
    apply decide_eq_false
    intro he
    have he' : a :: t.take 6 = '#' :: cs "EXTINF" := he
    injection he' with hh _
    exact h hh

theorem parseLines_extinf_step (line : List Char) (rest : List (List Char))
    (cur : Option Rec) (htrim : trim line = line)
    (hne : line.isEmpty = false)
    (hstart : startsWith (cs "#EXTINF") line = true) :
    parseLines (line :: rest) cur =
      parseLines rest (some (parse_extinf_line line)) := by
  show (if (trim line).isEmpty then parseLines rest cur
    else if startsWith (cs "#EXTINF") (trim line) then
      parseLines rest (some (parse_extinf_line (trim line)))
    else if (trim line).headD ' ' = '#' then parseLines rest cur
    else match cur with
      | some info => { info with stream_url := some (trim line) } ::
          parseLines rest none
      | none => bareRecord (trim line) :: parseLines rest none) = _
  rw [htrim, if_neg (by rw [hne]; exact Bool.false_ne_true),
    if_pos (by rw [hstart])]

theorem parseLines_url_step (u : List Char) (rest : List (List Char))
    (info : Rec) (htrim : trim u = u) (hne : u.isEmpty = false)
    (hhash : u.headD ' ' ≠ '#') :
    parseLines (u :: rest) (some info) =
      { info with stream_url := some u } :: parseLines rest none := by
  show (if (trim u).isEmpty then parseLines rest (some info)
    else if startsWith (cs "#EXTINF") (trim u) then
      parseLines rest (some (parse_extinf_line (trim u)))
    else if (trim u).headD ' ' = '#' then parseLines rest (some info)
    else match some info with
      | some info => { info with stream_url := some (trim u) } ::
          parseLines rest none
      | none => bareRecord (trim u) :: parseLines rest none) = _
  rw [htrim, if_neg (by rw [hne]; exact Bool.false_ne_true),
    if_neg (by rw [startsWith_url_false u hhash]; exact Bool.false_ne_true),
    if_neg hhash]

theorem parseLines_skip_header (rest : List (List Char)) (cur : Option Rec) :
    parseLines (cs "#EXTM3U" :: rest) cur = parseLines rest cur := by
  show (if (trim (cs "#EXTM3U")).isEmpty then parseLines rest cur
    else if startsWith (cs "#EXTINF") (trim (cs "#EXTM3U")) then
      parseLines rest (some (parse_extinf_line (trim (cs "#EXTM3U"))))
    else if (trim (cs "#EXTM3U")).headD ' ' = '#' then parseLines rest cur
    else match cur with
      | some info => { info with stream_url := some (trim (cs "#EXTM3U")) } ::
          parseLines rest none
      | none => bareRecord (trim (cs "#EXTM3U")) :: parseLines rest none) = _
  rw [show trim (cs "#EXTM3U") = cs "#EXTM3U" from rfl,
    if_neg (by decide), if_neg (by decide), if_pos (by decide)]

/-- The record obtained by reparsing a wellformed record's generated
lines. -/
def reparsedFull (r : Rec) : Rec :=
  { reparsedBase r with stream_url := some (r.stream_url.getD []) }

theorem getLastD_mem {α : Type} (l : List α) :
    ∀ d, l ≠ [] → l.getLastD d ∈ l := by
  induction l with
  | nil => intro d h; exact absurd rfl h
  | cons a t ih =>
    intro d _
    rw [List.getLastD_cons]
    cases t with
    | nil => exact List.mem_cons_self a []
    | cons b t' => exact List.mem_cons_of_mem a (ih a (by simp))

theorem mem_genLines {rs : List Rec} {l : List Char} (h : l ∈ genLines rs) :
    ∃ r ∈ rs, l = generateExtinf r ∨ l = r.stream_url.getD [] := by
  induction rs with
  | nil => exact absurd h (by simp [genLines])
  | cons r rest ih =>
    have hstep : genLines (r :: rest) =
        generateExtinf r :: r.stream_url.getD [] :: genLines rest := rfl
    rw [hstep] at h
    rcases List.mem_cons.mp h with rfl | h2
    · exact ⟨r, List.mem_cons_self r rest, Or.inl rfl⟩
    · rcases List.mem_cons.mp h2 with rfl | h3
      · exact ⟨r, List.mem_cons_self r rest, Or.inr rfl⟩
      · obtain ⟨q, hq, hor⟩ := ih h3
        exact ⟨q, List.mem_cons_of_mem r hq, hor⟩

theorem notin_tokensText {x : Char} (ps : List (List Char × List Char))
    (tail : List Char) (hx : x ≠ ' ' ∧ x ≠ '=' ∧ x ≠ '"')
    (hps : ∀ p ∈ ps, x ∉ p.1 ∧ x ∉ p.2) (ht : x ∉ tail) :
    x ∉ tokensText ps tail := by
  induction ps with
  | nil => exact ht
  | cons p ps' ih =>
    intro hm
    have hstep : tokensText (p :: ps') tail =
        (' ' :: attrToken p.1 p.2) ++ tokensText ps' tail := rfl
    rw [hstep] at hm
    rcases List.mem_append.mp hm with hA | hB
    · rcases List.mem_cons.mp hA with he | hA2
      · exact hx.1 he
      · unfold attrToken at hA2
        rcases List.mem_append.mp hA2 with hC | hD
        · rcases List.mem_append.mp hC with hE | hF
          · exact (hps p (List.mem_cons_self p ps')).1 hE
          · rcases List.mem_cons.mp hF with he | hF2
            · exact hx.2.1 he
            · rcases List.mem_cons.mp hF2 with he | hF3
              · exact hx.2.2 he
              · exact (hps p (List.mem_cons_self p ps')).2 hF3
        · rcases List.mem_cons.mp hD with he | hD2
          · exact hx.2.2 he
          · simp at hD2
    · exact ih (fun q hq => hps q (List.mem_cons_of_mem p hq)) hB

theorem newline_notin_generateExtinf (r : Rec) (h : WFrec r = true) :
    '\n' ∉ generateExtinf r := by
  obtain ⟨h1, -, hn, -, -⟩ := WFrec_props h
  intro hm
  unfold generateExtinf at hm
  rcases List.mem_append.mp hm with hA | hB
  · exact absurd hA (by decide)
  · refine notin_tokensText (emittedAttrs r) _
      ⟨by decide, by decide, by decide⟩ ?_ ?_ hB
    · intro p hp
      have hok := emitted_token_ok h p hp
      constructor
      · intro hm1
        exact absurd (hok.1 '\n' hm1) (by decide)
      · intro hm2
        exact (hok.2.2 '\n' hm2).2 rfl
    · intro hm3
      rcases List.mem_cons.mp hm3 with he | hm4
      · exact absurd he (by decide)
      · rw [name_getD_eq h1] at hm4
        exact (goodName_props hn).2.1 hm4

theorem genLines_lines_ok {rs : List Rec} (h : ∀ r ∈ rs, WFrec r = true) :
    ∀ l ∈ genLines rs, ('\n' ∉ l) ∧ l ≠ [] ∧ trim l = l := by
  intro l hl
  obtain ⟨r, hr, hor⟩ := mem_genLines hl
  have hwf := h r hr
  obtain ⟨-, -, -, hu, -⟩ := WFrec_props hwf
  obtain ⟨hu1, hu2, -, hu4⟩ := goodUrl_props hu
  rcases hor with rfl | rfl
  · refine ⟨newline_notin_generateExtinf r hwf, ?_,
      trim_generateExtinf r hwf⟩
    intro he
    have h0 := generateExtinf_ne_nil r
    rw [he] at h0
    simp at h0
  · refine ⟨hu4, ?_, hu2⟩
    intro he
    rw [he] at hu1
    simp at hu1

theorem trim_generate (rs : List Rec) (h : ∀ r ∈ rs, WFrec r = true) :
    trim (generate_m3u_content rs) = generate_m3u_content rs := by
  have hne : ∀ l ∈ cs "#EXTM3U" :: genLines rs, l ≠ [] := by
    intro l hl
    rcases List.mem_cons.mp hl with rfl | hl2
    · intro he
      exact absurd he (by decide)
    · exact (genLines_lines_ok h l hl2).2.1
  unfold generate_m3u_content
  apply trim_eq_self_of
  · apply dropWhile_eq_self_of_head
    intro c hc
    cases hgl : genLines rs with
    | nil =>
      rw [hgl] at hc
      have h0 : (joinLines [cs "#EXTM3U"]).head? = some '#' := rfl
      rw [h0, Option.some.injEq] at hc
      rw [← hc]
      decide
    | cons l0 gl' =>
      rw [hgl] at hc
      have h0 : (joinLines (cs "#EXTM3U" :: l0 :: gl')).head? =
          some '#' := rfl
      rw [h0, Option.some.injEq] at hc
      rw [← hc]
      decide
  · intro c hc
    rw [joinLines_getLast? _ (by simp) hne] at hc
    have hmem : (cs "#EXTM3U" :: genLines rs).getLastD [] ∈
        cs "#EXTM3U" :: genLines rs := getLastD_mem _ [] (by simp)
    rcases List.mem_cons.mp hmem with hL | hL
    · rw [hL] at hc
      have h0 : (cs "#EXTM3U").getLast? = some 'U' := by decide
      rw [h0, Option.some.injEq] at hc
      rw [← hc]
      decide
    · exact trim_fix_getLast (genLines_lines_ok h _ hL).2.2 c hc


theorem parseLines_gen (rs : List Rec) (h : ∀ r ∈ rs, WFrec r = true) :
    parseLines (genLines rs) none = rs.map reparsedFull := by
  induction rs with
  | nil => rfl
  | cons r rest ih =>
    have hr := h r (List.mem_cons_self r rest)
    obtain ⟨-, -, -, hu, -⟩ := WFrec_props hr
    obtain ⟨hu1, hu2, hu3, -⟩ := goodUrl_props hu
    show parseLines (generateExtinf r :: r.stream_url.getD [] ::
      genLines rest) none = _
    rw [parseLines_extinf_step _ _ _ (trim_generateExtinf r hr)
      (generateExtinf_ne_nil r) (startsWith_extinf_generate r)]
    rw [parse_generateExtinf r hr]
    rw [parseLines_url_step _ _ _ hu2 hu1 hu3]
    rw [ih (fun q hq => h q (List.mem_cons_of_mem r hq))]
    rfl

theorem parse_generate_eq (rs : List Rec) (h : ∀ r ∈ rs, WFrec r = true) :
    parse_m3u_content (generate_m3u_content rs) = rs.map reparsedFull := by
  have hnl : ∀ l ∈ cs "#EXTM3U" :: genLines rs, '\n' ∉ l := by
    intro l hl
    rcases List.mem_cons.mp hl with rfl | hl2
    · decide
    · exact (genLines_lines_ok h l hl2).1
  unfold parse_m3u_content
  rw [trim_generate rs h]
  unfold generate_m3u_content
  rw [splitOnChar_joinLines _ (by simp) hnl, parseLines_skip_header]
  exact parseLines_gen rs h

theorem tupleOf_reparsedFull (r : Rec) :
    tupleOf (reparsedFull r) = tupleOf r := rfl

theorem map_tupleOf_reparsedFull (rs : List Rec) :
    (rs.map reparsedFull).map tupleOf = rs.map tupleOf := by
  rw [List.map_map]
  exact List.map_congr_left (fun r _ => tupleOf_reparsedFull r)

/-- A playlist text whose parse/generate cycle is not idempotent: the
display name captured after the first comma contains a quote and a
comma, so the regenerated line parses to a different name. -/
def c5cex_t : List Char :=
  cs "#EXTM3U\n#EXTINF:-1 tvg-name=\"a,b\",CNN\nhttp://x"

/-- The semantic tuple of the single record of the first parse of
`c5cex_t`. -/
def c5cex_s : SemTuple :=
  { name := cs "b\",CNN", group_title := [], tvg_id := [],
    tvg_name := cs "a,b", tvg_logo := [], tvg_epg := [],
    stream_url := cs "http://x" }

set_option maxRecDepth 20000 in
/-- C5 counterexample: parsing `c5cex_t`, regenerating and reparsing
does not preserve the semantic tuple set — the tuple of the first parse
is absent from the reparse, because the name extracted after the FIRST
comma (`b",CNN`) is re-emitted after the attribute tokens and the next
parse extracts `b",b",CNN` instead. -/
theorem c5_counterexample :
    c5cex_s ∈ (parse_m3u_content c5cex_t).map tupleOf ∧
      c5cex_s ∉ (parse_m3u_content (generate_m3u_content
        (parse_m3u_content c5cex_t))).map tupleOf := by
  constructor
  · decide
  · decide

/-- C5 (amended): for texts all of whose parsed records are wellformed —
display name present, stripped and free of `=`, quotes-and-comma-free
attribute values, and a stripped non-comment address — the
parse/generate/parse cycle reproduces exactly the semantic
(name, group, attributes, address) tuples of the first parse. -/
theorem c5_round_trip (t : List Char)
    (h : ∀ r ∈ parse_m3u_content t, WFrec r = true) :
    (parse_m3u_content (generate_m3u_content
        (parse_m3u_content t))).map tupleOf =
      (parse_m3u_content t).map tupleOf := by
  rw [parse_generate_eq _ h]
  exact map_tupleOf_reparsedFull _

/-- A wellformed playlist text for the round-trip witness. -/
def c5wit_t : List Char :=
  cs "#EXTM3U\n#EXTINF:-1 tvg-id=\"c1\" group-title=\"News\",CNN\nhttp://x/cnn"

set_option maxRecDepth 20000 in
theorem c5_round_trip_witness :
    (∀ r ∈ parse_m3u_content c5wit_t, WFrec r = true) ∧
      (parse_m3u_content (generate_m3u_content
          (parse_m3u_content c5wit_t))).map tupleOf =
        (parse_m3u_content c5wit_t).map tupleOf :=
  ⟨by decide, c5_round_trip c5wit_t (by decide)⟩

end IPTV
